import Mathlib

/-!
# Verification of the Excel validation engine

Shallow embedding of `src/composables/useExcelValidation.ts`
(`validateHeader`, `validateData`, `validateExcelFile`) and proofs about it.

Modelling conventions:
* JavaScript cell values are modelled by `Value` (string / number / boolean /
  null / undefined).  Numbers are modelled as integers: the engine only uses
  them through `typeof`, `String(...)` and strict equality, and no claim
  depends on non-integral numerics.
* String-keyed records (rows, the `uniqueValues` object) and JS `Map`s are
  modelled as association lists in insertion order.  (JS objects order
  integer-like keys first; none of the constraint keys in the claims are
  integer-like, and JS `Map` is exactly insertion-ordered.)
* The engine's two reactive cells are made explicit:
  - progress writes are collected in a `trace` field (the initial reset to 0
    followed by one write per completed step);
  - the cancellation flag, which is reset at the start of `validateData` and
    can only be set (never cleared) by `cancelValidation` while the run is in
    progress, is modelled by `cs : Option Nat`: `cs = some c` means the flag
    is first observed set at the `c`-th cancellation check of the run
    (checks are performed at the start of each row iteration and of each
    uniqueness-resolution iteration, in order).  `cs = none` means the flag
    is never set during the run.
* Throwing `ValidationCancellationError(errors)` is modelled by
  `Except.error errors`.
-/

namespace ExcelValidation

/-- JS runtime values as used by the validator (strings, numbers, booleans,
`null` and `undefined`). -/
inductive Value where
  | vStr (s : String)
  | vNum (n : Int)
  | vBool (b : Bool)
  | vNull
  | vUndefined
deriving DecidableEq, Repr

/-- The `ExcelCellErrorType` enum from `types/excel`. -/
inductive ExcelCellErrorType where
  | REQUIRED
  | TYPE_MISMATCH
  | EMAIL_RULE
  | MOBILE_RULE
  | EMPLOYEE_RULE
  | ACCEPTED_VALUES
  | CUSTOM_VALIDATION
  | DUPLICATE
deriving DecidableEq, Repr

/-- `ExcelCellValidationError` records. -/
structure ExcelCellValidationError where
  row : Nat
  column : String
  message : String
  errorType : ExcelCellErrorType
deriving DecidableEq, Repr

/-- A data row: a string-keyed record of cell values (insertion order). -/
abbrev Row := List (String × Value)

/-- Characters matched by the JS regex class `\s` (the common ones; exotic
Unicode whitespace is not exercised by the code or the claims). -/
def jsWhitespaceChar (c : Char) : Bool :=
  c = ' ' || c = '\t' || c = '\n' || c = '\r' || c = '\x0b' || c = '\x0c'

/-- JS `String.prototype.trim`: strip whitespace from both ends. -/
def jsTrim (s : String) : String :=
  String.mk (((s.toList.dropWhile jsWhitespaceChar).reverse.dropWhile jsWhitespaceChar).reverse)

/-- JS `String(value)` coercion for the values the validators receive. -/
def jsString : Value → String
  | .vStr s => s
  | .vNum n => toString n
  | .vBool b => if b then "true" else "false"
  | .vNull => "null"
  | .vUndefined => "undefined"

/-- `value === null || value === "" || value === undefined` (the required-field
emptiness test at `useExcelValidation.ts:226`). -/
def requiredEmpty : Value → Bool
  | .vNull => true
  | .vUndefined => true
  | .vStr s => s = ""
  | _ => false

/-- JS loose `value != null` (false exactly for `null` and `undefined`). -/
def jsNonNull : Value → Bool
  | .vNull => false
  | .vUndefined => false
  | _ => true

/-- JS `typeof value` for our value kinds. -/
def typeofStr : Value → String
  | .vStr _ => "string"
  | .vNum _ => "number"
  | .vBool _ => "boolean"
  | .vNull => "object"
  | .vUndefined => "undefined"

/-- Is the value a string? (`typeof value === "string"`). -/
def isStringV : Value → Bool
  | .vStr _ => true
  | _ => false

/-- Is the value a string or a number? -/
def isStrOrNumV : Value → Bool
  | .vStr _ => true
  | .vNum _ => true
  | _ => false

/-- `typeof rawValue === "string" ? rawValue.trim() : rawValue`
(`useExcelValidation.ts:217`). -/
def trimIfString : Value → Value
  | .vStr s => .vStr (jsTrim s)
  | v => v

/-- Characters allowed in the runs of the email regex: `[^\s@]`. -/
def emailChar (c : Char) : Bool :=
  !(jsWhitespaceChar c) && c != '@'

/-- The email check `/^[^\s@]+@[^\s@]+\.[^\s@]+$/.test(value)`
(`useExcelValidation.ts:93`): a non-empty `[^\s@]` run, an `@`, then a
remainder of `[^\s@]` characters containing a `.` with at least one character
on each side. -/
def isEmail (s : String) : Bool :=
  let cs := s.toList
  match cs.findIdx? (· == '@') with
  | none => false
  | some i =>
    let a := cs.take i
    let b := cs.drop (i + 1)
    !a.isEmpty && a.all emailChar && b.all emailChar && ((b.drop 1).dropLast).contains '.'

/-- The employee-number check `/^\d{7,9}$/.test(String(value))`
(`useExcelValidation.ts:96`). -/
def isEmployeeNumber (v : Value) : Bool :=
  let t := (jsString v).toList
  decide (7 ≤ t.length) && decide (t.length ≤ 9) && t.all Char.isDigit

/-- The mobile-number check
`/^(?:\+91|0)?\s*\d{10}$/.test(String(value).replace(/\s+/g, ""))`
(`useExcelValidation.ts:99`): after removing all whitespace, an optional
`+91` or `0` prefix followed by exactly ten digits. -/
def isMobileNumber (v : Value) : Bool :=
  let t := (jsString v).toList.filter (fun c => !(jsWhitespaceChar c))
  let tenDigits := fun (l : List Char) => decide (l.length = 10) && l.all Char.isDigit
  tenDigits t || (t.take 3 == ['+', '9', '1'] && tenDigits (t.drop 3)) ||
    (t.take 1 == ['0'] && tenDigits (t.drop 1))

/-- Result of a user-supplied custom validator: literally `true`, or an
error fragment `{message, errorType}` to be merged with row/column context
(per the spec's tagged-result design note). -/
inductive CustomResult where
  | ok
  | fragment (message : String) (errorType : ExcelCellErrorType)

/-- The `validators` option object of a field rule. -/
structure Validators where
  isEmail : Bool := false
  isMobileNumber : Bool := false
  isEmployeeNumber : Bool := false

/-- A field rule of an `ExcelValidationSchema`.  The custom validator is
typed with an optional second (row) parameter, as declared in the spec's data
model (`customValidator: (value, rowData?) -> ...`); `none` for that
parameter models JS `undefined`. -/
structure FieldRule where
  type : Option String := none
  required : Bool := false
  validators : Option Validators := none
  acceptedValues : Option (List Value) := none
  customValidator : Option (Value → Option Row → CustomResult) := none

/-- A validation schema: `Object.entries(validationSchema)` in declaration
order. -/
abbrev Schema := List (String × FieldRule)

/-- `row[column]` on a JS record: the stored value, or `undefined` when the
key is absent. -/
def jsLookup (row : Row) (col : String) : Value :=
  match row.find? (fun p => p.1 == col) with
  | some p => p.2
  | none => .vUndefined

/-- Truthiness of the optional `rules.type` string (`rules.type &&` at
`useExcelValidation.ts:237`): present and non-empty. -/
def typeTruthy : Option String → Bool
  | some t => t != ""
  | none => false

/-- JS `Array.prototype.join` element coercion (used for
`acceptedValues.join(", ")`): strings stay, numbers/booleans stringify,
null/undefined become the empty string. -/
def jsJoinElem : Value → String
  | .vStr s => s
  | .vNum n => toString n
  | .vBool b => if b then "true" else "false"
  | .vNull => ""
  | .vUndefined => ""

/-- Per-cell validation (`useExcelValidation.ts:213-300`), for a value that
has already gone through the trim-if-string step.  The required check and a
type mismatch `continue` past the remaining checks; the format checks,
accepted-values check and custom validator all accumulate.  The custom
validator is called as in the source — `rules.customValidator(value)` — i.e.
its optional row parameter receives `undefined` (`none`); the `_row`
parameter is the row that is in scope at the call site. -/
def cellErrors (col : String) (rule : FieldRule) (rowNumber : Nat) (value : Value)
    (_row : Row) : List ExcelCellValidationError :=
  if rule.required && requiredEmpty value then
    [⟨rowNumber, col, "This field is required", .REQUIRED⟩]
  else if typeTruthy rule.type && jsNonNull value && (typeofStr value != rule.type.getD "") then
    [⟨rowNumber, col, "Expected type " ++ rule.type.getD "" ++ ", got " ++ typeofStr value,
      .TYPE_MISMATCH⟩]
  else
    (match rule.validators with
      | some vs =>
        if jsNonNull value then
          (if vs.isEmail && isStringV value && !(isEmail (jsString value)) then
            [⟨rowNumber, col, "Invalid email address", .EMAIL_RULE⟩] else []) ++
          (if vs.isMobileNumber && isStrOrNumV value && !(isMobileNumber value) then
            [⟨rowNumber, col, "Invalid mobile number", .MOBILE_RULE⟩] else []) ++
          (if vs.isEmployeeNumber && isStrOrNumV value && !(isEmployeeNumber value) then
            [⟨rowNumber, col, "Invalid employee number", .EMPLOYEE_RULE⟩] else [])
        else []
      | none => []) ++
    (match rule.acceptedValues with
      | some l =>
        if jsNonNull value && !(l.contains value) then
          [⟨rowNumber, col,
            "Value must be one of: " ++ String.intercalate ", " (l.map jsJoinElem),
            .ACCEPTED_VALUES⟩]
        else []
      | none => []) ++
    (match rule.customValidator with
      | some f =>
        if jsNonNull value then
          match f value none with
          | .ok => []
          | .fragment m et => [⟨rowNumber, col, m, et⟩]
        else []
      | none => [])

/-- All per-cell errors of one row, iterating the schema entries in
declaration order with the trim-if-string preprocessing of
`useExcelValidation.ts:217`. -/
def rowErrors (schema : Schema) (rowNumber : Nat) (row : Row) :
    List ExcelCellValidationError :=
  (schema.map (fun p => cellErrors p.1 p.2 rowNumber (trimIfString (jsLookup row p.1)) row)).flatten

/-- The processed row: exactly the schema's columns, each with the
trimmed-or-passthrough value (`useExcelValidation.ts:210-220`). -/
def processRow (schema : Schema) (row : Row) : Row :=
  schema.map (fun p => (p.1, trimIfString (jsLookup row p.1)))

/-- A constraint group's key: `cols.join("-").trim()`
(`useExcelValidation.ts:189`). -/
def compositeKey (cols : List String) : String :=
  jsTrim (String.intercalate "-" cols)

/-- One component of a composite value:
`typeof val === "string" ? val.trim() : val ?? "NULL"` followed by the
stringification performed by `join` (`useExcelValidation.ts:310-316`). -/
def keyPart : Value → String
  | .vStr s => jsTrim s
  | .vNull => "NULL"
  | .vUndefined => "NULL"
  | v => jsString v

/-- A row's composite value for one constraint group. -/
def compositeValue (cols : List String) (row : Row) : String :=
  String.intercalate "-" (cols.map (fun c => keyPart (jsLookup row c)))

/-- A JS `Map<string, number[]>` in insertion order. -/
abbrev ValueMap := List (String × List Nat)

/-- The `uniqueValues` record: constraint key → value map, in insertion
order. -/
abbrev UniqueValues := List (String × ValueMap)

/-- Association-list read (`Map.get` / property read). -/
def aget? {β : Type} (m : List (String × β)) (k : String) : Option β :=
  (m.find? (fun p => p.1 == k)).map Prod.snd

/-- Association-list write (`Map.set` / property assignment): overwrite in
place when the key exists, append otherwise. -/
def aset {β : Type} (m : List (String × β)) (k : String) (v : β) : List (String × β) :=
  if m.any (fun p => p.1 == k) then
    m.map (fun p => if p.1 == k then (k, v) else p)
  else
    m ++ [(k, v)]

/-- `uniqueValues` initialisation (`useExcelValidation.ts:187-193`): assign a
fresh empty map for every group's key. -/
def initUniqueValues (unique : List (List String)) : UniqueValues :=
  unique.foldl (fun m cols => aset m (compositeKey cols) []) []

/-- Record a row number under a composite value in a group's value map:
append to the existing row list when `valueMap.has(values)`, create a
singleton entry otherwise (`useExcelValidation.ts:322-334`). -/
def vmStep (valueMap : ValueMap) (values : String) (rowNumber : Nat) : ValueMap :=
  match aget? valueMap values with
  | some rows => aset valueMap values (rows ++ [rowNumber])
  | none => valueMap ++ [(values, [rowNumber])]

/-- The per-row tracking step for one constraint group
(`useExcelValidation.ts:306-336`). -/
def stepGroup (m : UniqueValues) (cols : List String) (row : Row) (rowNumber : Nat) :
    UniqueValues :=
  aset m (compositeKey cols)
    (vmStep ((aget? m (compositeKey cols)).getD []) (compositeValue cols row) rowNumber)

/-- Track one row's composite values for every constraint group. -/
def trackRowGroups (m : UniqueValues) (unique : List (List String)) (row : Row)
    (rowNumber : Nat) : UniqueValues :=
  unique.foldl (fun m cols => stepGroup m cols row rowNumber) m

/-- The shared DUPLICATE message
`"Duplicate value found: {value} in rows {rows.join(\", \")}"`. -/
def dupMsg (value : String) (rows : List Nat) : String :=
  "Duplicate value found: " ++ value ++ " in rows " ++
    String.intercalate ", " (rows.map toString)

/-- The DUPLICATE errors emitted while resolving one `uniqueValues` entry
(`useExcelValidation.ts:353-368`): one error per listed row for every
composite value held by more than one row. -/
def dupErrorsOf (key : String) (vm : ValueMap) : List ExcelCellValidationError :=
  (vm.map (fun p =>
    if 1 < p.2.length then
      p.2.map (fun r => (⟨r, key, dupMsg p.1 p.2, .DUPLICATE⟩ : ExcelCellValidationError))
    else [])).flatten

/-- `Math.round((completed / total) * 100)` over exact rationals
(round half away from zero coincides with `floor (x + 1/2)` for the
non-negative arguments used here); requires `0 < total`, which holds at every
call site because the progress helper only runs inside a non-empty loop. -/
def jsRound100 (completed total : Nat) : Nat :=
  (200 * completed + total) / (2 * total)

/-- Whether the cancellation flag reads true at cancellation check number
`step` (see the module docstring for the `cs` convention). -/
def cancelledAt (cs : Option Nat) (step : Nat) : Bool :=
  match cs with
  | some c => decide (c ≤ step)
  | none => false

/-- The engine's mutable locals during a run: the accumulated `errors`,
`processedData`, the `uniqueValues` tracking structure, `completedSteps`, and
the sequence of values written to `validationProgress`. -/
structure RunState where
  errors : List ExcelCellValidationError
  processedData : List Row
  uniqueValues : UniqueValues
  completedSteps : Nat
  trace : List Nat

/-- The row loop of `validateData` (`useExcelValidation.ts:199-340`): check
the cancellation flag, validate every schema column, push the processed row,
track uniqueness values, then bump the progress and yield.  `i` is the index
of the next row; the cancellation check before row `i` is check number `i`. -/
def runRows (schema : Schema) (unique : List (List String)) (cs : Option Nat) (T : Nat) :
    List Row → Nat → RunState → Except (List ExcelCellValidationError) RunState
  | [], _, st => .ok st
  | row :: rest, i, st =>
    if cancelledAt cs i then .error st.errors
    else
      let rowNumber := i + 2
      let steps := st.completedSteps + 1
      runRows schema unique cs T rest (i + 1)
        ⟨st.errors ++ rowErrors schema rowNumber row,
         st.processedData ++ [processRow schema row],
         trackRowGroups st.uniqueValues unique row rowNumber,
         steps,
         st.trace ++ [jsRound100 steps T]⟩

/-- The uniqueness-resolution loop of `validateData`
(`useExcelValidation.ts:343-374`): iterate the entries of `uniqueValues`,
checking the cancellation flag before each entry (check number `N + j` after
the `N` row checks), emitting the DUPLICATE errors and bumping the
progress. -/
def runGroups (cs : Option Nat) (T N : Nat) :
    UniqueValues → Nat → RunState → Except (List ExcelCellValidationError) RunState
  | [], _, st => .ok st
  | (key, vm) :: rest, j, st =>
    if cancelledAt cs (N + j) then .error st.errors
    else
      let steps := st.completedSteps + 1
      runGroups cs T N rest (j + 1)
        ⟨st.errors ++ dupErrorsOf key vm,
         st.processedData, st.uniqueValues, steps,
         st.trace ++ [jsRound100 steps T]⟩

/-- What a completed run returns, together with the observed progress-write
sequence. -/
structure RunResult where
  errors : List ExcelCellValidationError
  processedData : List Row
  trace : List Nat
deriving DecidableEq, Repr

/-- `validateData(data, validationSchema, unique)`
(`useExcelValidation.ts:153-378`).  `cs` is the cancellation schedule;
`.error errs` models `throw new ValidationCancellationError(errs)`. -/
def validateData (data : List Row) (schema : Schema) (unique : List (List String))
    (cs : Option Nat) : Except (List ExcelCellValidationError) RunResult :=
  match runRows schema unique cs (data.length + unique.length) data 0
      ⟨[], [], initUniqueValues unique, 0, [0]⟩ with
  | .error e => .error e
  | .ok st1 =>
    match runGroups cs (data.length + unique.length) data.length st1.uniqueValues 0 st1 with
    | .error e => .error e
    | .ok st2 => .ok ⟨st2.errors, st2.processedData, st2.trace⟩

/-- `validateHeader(excelSchema, excelHeader)`
(`useExcelValidation.ts:117-150`): false iff some schema key is missing from
the trimmed headers (the extra-headers branch only logs). -/
def validateHeader (schema : Schema) (header : List String) : Bool :=
  let expectedHeaders := schema.map Prod.fst
  let excelHeaders := header.map jsTrim
  let missingHeaders := expectedHeaders.filter (fun h => !excelHeaders.contains h)
  if 0 < missingHeaders.length then false else true

/-- Failures of `validateExcelFile`, with the messages thrown by the source. -/
inductive ExcelFileFailure where
  /-- `"Invalid Excel file format: " + e.message` (decode failure). -/
  | decodeError (message : String)
  /-- `"No data found in the file."` -/
  | emptyData
  /-- `"Invalid file format. Please check the sample template."` -/
  | headerMismatch
  /-- The propagated `ValidationCancellationError` with its partial errors. -/
  | cancelled (errors : List ExcelCellValidationError)
deriving DecidableEq, Repr

/-- The successful result of `validateExcelFile`. -/
structure ExcelFileResult where
  rawData : List Row
  processedData : List Row
  errors : List ExcelCellValidationError
deriving DecidableEq, Repr

/-- `validateExcelFile(fileData, schema, unique)`
(`useExcelValidation.ts:382-427`).  The external `xlsx` decoder (out of scope
per the spec, which gives it the contract
`decode(bytes) -> { firstSheetRows, firstSheetHeaderRow }`, raising a decode
error on malformed input) is abstracted as the already-decoded `decoded`
argument: `.error m` is a decoder exception with message `m`, `.ok (rows,
header)` is the first sheet's data rows and literal header row. -/
def validateExcelFile (decoded : Except String (List Row × List String)) (schema : Schema)
    (unique : List (List String)) (cs : Option Nat) : Except ExcelFileFailure ExcelFileResult :=
  match decoded with
  | .error m => .error (.decodeError ("Invalid Excel file format: " ++ m))
  | .ok (jsonData, header) =>
    if jsonData.length = 0 then .error .emptyData
    else if validateHeader schema header then
      match validateData jsonData schema unique cs with
      | .error errs => .error (.cancelled errs)
      | .ok r => .ok ⟨jsonData, r.processedData, r.errors⟩
    else .error .headerMismatch

/-! ## Closed forms used to state the theorems -/

/-- The concatenated per-row errors of a block of rows whose first row has
index `i`. -/
def rowsErrorsFrom (schema : Schema) (i : Nat) : List Row → List ExcelCellValidationError
  | [] => []
  | row :: rest => rowErrors schema (i + 2) row ++ rowsErrorsFrom schema (i + 1) rest

/-- All per-row (non-DUPLICATE-phase) errors of a dataset. -/
def allRowsErrors (schema : Schema) (data : List Row) : List ExcelCellValidationError :=
  rowsErrorsFrom schema 0 data

/-- The uniqueness-tracking structure after scanning a block of rows whose
first row has index `i`, starting from `m`. -/
def trackAllFrom (unique : List (List String)) (i : Nat) (m : UniqueValues) :
    List Row → UniqueValues
  | [] => m
  | row :: rest => trackAllFrom unique (i + 1) (trackRowGroups m unique row (i + 2)) rest

/-- The fully populated `uniqueValues` structure of a run. -/
def finalMap (data : List Row) (unique : List (List String)) : UniqueValues :=
  trackAllFrom unique 0 (initUniqueValues unique) data

/-- All DUPLICATE errors emitted from a `uniqueValues` structure, in
resolution order. -/
def allDupErrors (m : UniqueValues) : List ExcelCellValidationError :=
  (m.map (fun p => dupErrorsOf p.1 p.2)).flatten

/-- The evolution of a single constraint group's value map over a block of
rows whose first row has index `i` (the single-group restriction of the
per-row tracking). -/
def vmTrack (g : List String) (i : Nat) (vm : ValueMap) : List Row → ValueMap
  | [] => vm
  | row :: rest => vmTrack g (i + 1) (vmStep vm (compositeValue g row) (i + 2)) rest

/-- The progress values written by `n` consecutive steps after `s` steps were
already complete, out of `T` total. -/
def traceSeg (T s n : Nat) : List Nat :=
  (List.range n).map (fun k => jsRound100 (s + 1 + k) T)

/-- The errors accumulated when the run is cancelled at check number `c`:
the first `c` rows' errors while still in the row phase, all row errors plus
the first `c - N` resolution entries' DUPLICATE errors afterwards. -/
def accumulatedErrors (data : List Row) (schema : Schema) (unique : List (List String))
    (c : Nat) : List ExcelCellValidationError :=
  if c ≤ data.length then
    allRowsErrors schema (data.take c)
  else
    allRowsErrors schema data ++ allDupErrors ((finalMap data unique).take (c - data.length))

/-- The closed form of an uncancelled run: all row errors in row order, then
all DUPLICATE errors in resolution order; the processed rows in input order;
the progress trace `0` followed by one rounded value per completed step. -/
def normalResult (data : List Row) (schema : Schema) (unique : List (List String)) :
    RunResult :=
  ⟨allRowsErrors schema data ++ allDupErrors (finalMap data unique),
   data.map (processRow schema),
   0 :: traceSeg (data.length + unique.length) 0 (data.length + (finalMap data unique).length)⟩

/-- The number of errors in a list for a given row number, column and error
type. -/
def countRC (errs : List ExcelCellValidationError) (r : Nat) (c : String)
    (et : ExcelCellErrorType) : Nat :=
  (errs.filter (fun e => e.row == r && e.column == c && e.errorType == et)).length

/-- Per-cell validation as the SPEC's §4.2 step 6 words it (the claim under
scrutiny): identical to `cellErrors` except that the custom validator is
invoked with the cell value AND the full row, `customValidator(value,
fullRow)`.  Used only to compare the spec's wording against the engine. -/
def cellErrorsSpecRowArg (col : String) (rule : FieldRule) (rowNumber : Nat) (value : Value)
    (row : Row) : List ExcelCellValidationError :=
  if rule.required && requiredEmpty value then
    [⟨rowNumber, col, "This field is required", .REQUIRED⟩]
  else if typeTruthy rule.type && jsNonNull value && (typeofStr value != rule.type.getD "") then
    [⟨rowNumber, col, "Expected type " ++ rule.type.getD "" ++ ", got " ++ typeofStr value,
      .TYPE_MISMATCH⟩]
  else
    (match rule.validators with
      | some vs =>
        if jsNonNull value then
          (if vs.isEmail && isStringV value && !(isEmail (jsString value)) then
            [⟨rowNumber, col, "Invalid email address", .EMAIL_RULE⟩] else []) ++
          (if vs.isMobileNumber && isStrOrNumV value && !(isMobileNumber value) then
            [⟨rowNumber, col, "Invalid mobile number", .MOBILE_RULE⟩] else []) ++
          (if vs.isEmployeeNumber && isStrOrNumV value && !(isEmployeeNumber value) then
            [⟨rowNumber, col, "Invalid employee number", .EMPLOYEE_RULE⟩] else [])
        else []
      | none => []) ++
    (match rule.acceptedValues with
      | some l =>
        if jsNonNull value && !(l.contains value) then
          [⟨rowNumber, col,
            "Value must be one of: " ++ String.intercalate ", " (l.map jsJoinElem),
            .ACCEPTED_VALUES⟩]
        else []
      | none => []) ++
    (match rule.customValidator with
      | some f =>
        if jsNonNull value then
          match f value (some row) with
          | .ok => []
          | .fragment m et => [⟨rowNumber, col, m, et⟩]
        else []
      | none => [])

/-! ## Association-list lemmas -/

theorem aget?_nil {β : Type} (k : String) : aget? ([] : List (String × β)) k = none := rfl

theorem aget?_cons {β : Type} (a : String) (b : β) (tl : List (String × β)) (k : String) :
    aget? ((a, b) :: tl) k = if a = k then some b else aget? tl k := by
  by_cases h : a = k
  · simp only [aget?, if_pos h]
    rw [List.find?_cons_of_pos _ (by simpa using h)]
    rfl
  · simp only [aget?, if_neg h]
    rw [List.find?_cons_of_neg _ (by simpa using h)]

theorem aset_nil {β : Type} (k : String) (v : β) : aset ([] : List (String × β)) k v = [(k, v)] := rfl

theorem aset_cons {β : Type} (a : String) (b : β) (tl : List (String × β)) (k : String) (v : β) :
    aset ((a, b) :: tl) k v =
      if a = k then (k, v) :: tl.map (fun p => if p.1 == k then (k, v) else p)
      else (a, b) :: aset tl k v := by
  by_cases h : a = k
  · simp only [if_pos h]
    unfold aset
    rw [if_pos (by simp [h])]
    simp [h]
  · simp only [if_neg h]
    unfold aset
    by_cases hany : tl.any (fun p => p.1 == k)
    · rw [if_pos (by simp [hany]), if_pos hany]
      simp [h]
    · rw [if_neg (by simp [h, hany]), if_neg hany]
      simp

theorem aget?_map_repl_self {β : Type} (tl : List (String × β)) (k : String) (v : β) :
    aget? (tl.map (fun p => if p.1 == k then (k, v) else p)) k
      = (aget? tl k).map (fun _ => v) := by
  induction tl with
  | nil => rfl
  | cons hd tl ih =>
    obtain ⟨a, b⟩ := hd
    by_cases h : a = k
    · simp only [List.map_cons, if_pos (by simpa using h : (a == k) = true)]
      rw [aget?_cons, aget?_cons, if_pos rfl, if_pos h]
      rfl
    · simp only [List.map_cons, if_neg (by simpa using h : ¬(a == k) = true)]
      rw [aget?_cons, aget?_cons, if_neg h, if_neg h]
      exact ih

theorem aget?_map_repl_ne {β : Type} (tl : List (String × β)) (k k' : String) (v : β)
    (h : k' ≠ k) :
    aget? (tl.map (fun p => if p.1 == k then (k, v) else p)) k' = aget? tl k' := by
  induction tl with
  | nil => rfl
  | cons hd tl ih =>
    obtain ⟨a, b⟩ := hd
    by_cases ha : a = k
    · simp only [List.map_cons, if_pos (by simpa using ha : (a == k) = true)]
      rw [aget?_cons, aget?_cons, if_neg (Ne.symm h), if_neg (ha ▸ fun e => h e.symm)]
      exact ih
    · simp only [List.map_cons, if_neg (by simpa using ha : ¬(a == k) = true)]
      rw [aget?_cons, aget?_cons]
      by_cases ha' : a = k'
      · simp [ha']
      · rw [if_neg ha', if_neg ha']
        exact ih

theorem aget?_aset_self {β : Type} (m : List (String × β)) (k : String) (v : β) :
    aget? (aset m k v) k = some v := by
  induction m with
  | nil => simp [aset_nil, aget?_cons]
  | cons hd tl ih =>
    obtain ⟨a, b⟩ := hd
    rw [aset_cons]
    by_cases h : a = k
    · rw [if_pos h, aget?_cons, if_pos rfl]
    · rw [if_neg h, aget?_cons, if_neg h]
      exact ih

theorem aget?_aset_ne {β : Type} (m : List (String × β)) (k k' : String) (v : β)
    (h : k' ≠ k) : aget? (aset m k v) k' = aget? m k' := by
  induction m with
  | nil => simp [aset_nil, aget?_cons, Ne.symm h]
  | cons hd tl ih =>
    obtain ⟨a, b⟩ := hd
    rw [aset_cons]
    by_cases ha : a = k
    · rw [if_pos ha, aget?_cons, if_neg (Ne.symm h), aget?_cons,
        if_neg (ha ▸ fun e => h e.symm)]
      exact aget?_map_repl_ne tl k k' v h
    · rw [if_neg ha, aget?_cons, aget?_cons]
      by_cases ha' : a = k'
      · simp [ha']
      · rw [if_neg ha', if_neg ha']
        exact ih

theorem keys_aset_mem {β : Type} (m : List (String × β)) (k : String) (v : β)
    (h : k ∈ m.map Prod.fst) : (aset m k v).map Prod.fst = m.map Prod.fst := by
  have hany : m.any (fun p => p.1 == k) = true := by
    simp only [List.any_eq_true, beq_iff_eq]
    obtain ⟨p, hp, hpk⟩ := List.mem_map.mp h
    exact ⟨p, hp, hpk⟩
  unfold aset
  rw [if_pos hany, List.map_map]
  apply List.map_congr_left
  intro p _
  by_cases hk : p.1 = k
  · simp [hk]
  · simp [hk]

theorem keys_aset_not_mem {β : Type} (m : List (String × β)) (k : String) (v : β)
    (h : k ∉ m.map Prod.fst) : (aset m k v).map Prod.fst = m.map Prod.fst ++ [k] := by
  have hany : m.any (fun p => p.1 == k) = false := by
    simp only [List.any_eq_false, beq_iff_eq]
    intro p hp hpk
    exact h (List.mem_map.mpr ⟨p, hp, hpk⟩)
  unfold aset
  rw [if_neg (by simp [hany])]
  simp

/-! ## Run normal forms -/

theorem traceSeg_zero (T s : Nat) : traceSeg T s 0 = [] := rfl

theorem traceSeg_succ (T s n : Nat) :
    traceSeg T s (n + 1) = jsRound100 (s + 1) T :: traceSeg T (s + 1) n := by
  unfold traceSeg
  rw [List.range_succ_eq_map, List.map_cons, List.map_map]
  refine congrArg₂ _ (by norm_num) ?_
  apply List.map_congr_left
  intro k _
  simp only [Function.comp_apply, Nat.succ_eq_add_one]
  ring_nf

theorem traceSeg_add (T s a b : Nat) :
    traceSeg T s (a + b) = traceSeg T s a ++ traceSeg T (s + a) b := by
  unfold traceSeg
  rw [List.range_add, List.map_append, List.map_map]
  refine congrArg₂ _ rfl ?_
  apply List.map_congr_left
  intro k _
  simp only [Function.comp_apply]
  ring_nf

theorem runRows_none (schema : Schema) (unique : List (List String)) (T : Nat) :
    ∀ (l : List Row) (i : Nat) (st : RunState),
      runRows schema unique none T l i st =
        .ok ⟨st.errors ++ rowsErrorsFrom schema i l,
             st.processedData ++ l.map (processRow schema),
             trackAllFrom unique i st.uniqueValues l,
             st.completedSteps + l.length,
             st.trace ++ traceSeg T st.completedSteps l.length⟩ := by
  intro l
  induction l with
  | nil =>
    intro i st
    simp [runRows, rowsErrorsFrom, trackAllFrom, traceSeg_zero]
  | cons row rest ih =>
    intro i st
    rw [runRows]
    simp only [cancelledAt, Bool.false_eq_true, if_false]
    rw [ih]
    congr 1
    simp only [RunState.mk.injEq]
    refine ⟨?_, ?_, ?_, ?_, ?_⟩
    · simp [rowsErrorsFrom, List.append_assoc]
    · simp [List.append_assoc]
    · simp [trackAllFrom]
    · simp only [List.length_cons]
      omega
    · simp [List.length_cons, traceSeg_succ, List.append_assoc]

theorem runGroups_none (T N : Nat) :
    ∀ (entries : UniqueValues) (j : Nat) (st : RunState),
      runGroups none T N entries j st =
        .ok ⟨st.errors ++ allDupErrors entries,
             st.processedData, st.uniqueValues,
             st.completedSteps + entries.length,
             st.trace ++ traceSeg T st.completedSteps entries.length⟩ := by
  intro entries
  induction entries with
  | nil =>
    intro j st
    simp [runGroups, allDupErrors, traceSeg_zero]
  | cons e rest ih =>
    intro j st
    obtain ⟨key, vm⟩ := e
    rw [runGroups]
    simp only [cancelledAt, Bool.false_eq_true, if_false]
    rw [ih]
    congr 1
    simp only [RunState.mk.injEq]
    refine ⟨?_, ?_, ?_, ?_, ?_⟩
    · simp [allDupErrors, List.append_assoc]
    · trivial
    · trivial
    · simp only [List.length_cons]
      omega
    · simp [List.length_cons, traceSeg_succ, List.append_assoc]

theorem validateData_none_eq (data : List Row) (schema : Schema)
    (unique : List (List String)) :
    validateData data schema unique none = .ok (normalResult data schema unique) := by
  unfold validateData
  rw [runRows_none]
  simp only []
  rw [runGroups_none]
  simp only []
  unfold normalResult
  congr 1
  simp only [RunResult.mk.injEq]
  refine ⟨?_, ?_, ?_⟩
  · simp [allRowsErrors, finalMap]
  · simp
  · simp only [List.nil_append, List.cons_append]
    rw [← traceSeg_add]
    simp [finalMap, Nat.zero_add]

/-! ## Cancellation lemmas -/

theorem runRows_cancel (schema : Schema) (unique : List (List String)) (T c : Nat) :
    ∀ (l : List Row) (i : Nat) (st : RunState), i ≤ c → c < i + l.length →
      runRows schema unique (some c) T l i st =
        .error (st.errors ++ rowsErrorsFrom schema i (l.take (c - i))) := by
  intro l
  induction l with
  | nil =>
    intro i st h1 h2
    simp only [List.length_nil] at h2
    omega
  | cons row rest ih =>
    intro i st h1 h2
    rw [runRows]
    by_cases hc : c ≤ i
    · have : c = i := le_antisymm hc h1
      rw [if_pos (by simp [cancelledAt, this])]
      subst this
      simp [rowsErrorsFrom]
    · rw [if_neg (by simp [cancelledAt]; omega)]
      rw [ih (i + 1) _ (by omega) (by simp at h2 ⊢; omega)]
      have htake : (row :: rest).take (c - i) = row :: rest.take (c - (i + 1)) := by
        have : c - i = (c - (i + 1)) + 1 := by omega
        rw [this, List.take_succ_cons]
      rw [htake]
      simp [rowsErrorsFrom, List.append_assoc]

theorem runRows_some_ge (schema : Schema) (unique : List (List String)) (T c : Nat) :
    ∀ (l : List Row) (i : Nat) (st : RunState), i + l.length ≤ c →
      runRows schema unique (some c) T l i st = runRows schema unique none T l i st := by
  intro l
  induction l with
  | nil =>
    intro i st _
    rfl
  | cons row rest ih =>
    intro i st h
    rw [runRows, runRows]
    rw [if_neg (by simp [cancelledAt]; simp at h; omega)]
    simp only [cancelledAt, Bool.false_eq_true, if_false]
    exact ih (i + 1) _ (by simp at h ⊢; omega)

theorem runGroups_cancel (T N c : Nat) :
    ∀ (entries : UniqueValues) (j : Nat) (st : RunState), N + j ≤ c →
      c < N + j + entries.length →
      runGroups (some c) T N entries j st =
        .error (st.errors ++ allDupErrors (entries.take (c - N - j))) := by
  intro entries
  induction entries with
  | nil =>
    intro j st h1 h2
    simp only [List.length_nil] at h2
    omega
  | cons e rest ih =>
    intro j st h1 h2
    obtain ⟨key, vm⟩ := e
    rw [runGroups]
    by_cases hc : c ≤ N + j
    · have : c = N + j := le_antisymm hc h1
      rw [if_pos (by simp [cancelledAt, this])]
      have : c - N - j = 0 := by omega
      simp [this, allDupErrors]
    · rw [if_neg (by simp [cancelledAt]; omega)]
      rw [ih (j + 1) _ (by omega) (by simp at h2 ⊢; omega)]
      have htake : ((key, vm) :: rest).take (c - N - j) =
          (key, vm) :: rest.take (c - N - (j + 1)) := by
        have : c - N - j = (c - N - (j + 1)) + 1 := by omega
        rw [this, List.take_succ_cons]
      rw [htake]
      simp [allDupErrors, List.append_assoc]

/-! ## Key-tracking lemmas for the `uniqueValues` structure -/

theorem mem_keys_aset {β : Type} (m : List (String × β)) (k k' : String) (v : β)
    (h : k' ∈ m.map Prod.fst) : k' ∈ (aset m k v).map Prod.fst := by
  by_cases hk : k ∈ m.map Prod.fst
  · rw [keys_aset_mem m k v hk]; exact h
  · rw [keys_aset_not_mem m k v hk]; exact List.mem_append_left _ h

theorem mem_keys_aset_self {β : Type} (m : List (String × β)) (k : String) (v : β) :
    k ∈ (aset m k v).map Prod.fst := by
  by_cases hk : k ∈ m.map Prod.fst
  · rw [keys_aset_mem m k v hk]; exact hk
  · rw [keys_aset_not_mem m k v hk]; simp

theorem mem_keys_foldInit (l : List (List String)) :
    ∀ (m : UniqueValues) (g : List String),
      (compositeKey g ∈ m.map Prod.fst ∨ g ∈ l) →
      compositeKey g ∈ (l.foldl (fun m cols => aset m (compositeKey cols) []) m).map Prod.fst := by
  induction l with
  | nil =>
    intro m g h
    rcases h with h | h
    · exact h
    · simp at h
  | cons cols rest ih =>
    intro m g h
    rw [List.foldl_cons]
    apply ih
    rcases h with h | h
    · exact Or.inl (mem_keys_aset _ _ _ _ h)
    · rcases List.mem_cons.mp h with h | h
      · subst h
        exact Or.inl (mem_keys_aset_self _ _ _)
      · exact Or.inr h

theorem mem_keys_initUniqueValues (unique : List (List String)) (g : List String)
    (hg : g ∈ unique) : compositeKey g ∈ (initUniqueValues unique).map Prod.fst :=
  mem_keys_foldInit unique [] g (Or.inr hg)

theorem keys_foldInit (l : List (List String)) :
    ∀ (m : UniqueValues), (l.map compositeKey).Nodup →
      (∀ k ∈ l.map compositeKey, k ∉ m.map Prod.fst) →
      (l.foldl (fun m cols => aset m (compositeKey cols) []) m).map Prod.fst
        = m.map Prod.fst ++ l.map compositeKey := by
  induction l with
  | nil =>
    intro m _ _
    simp
  | cons cols rest ih =>
    intro m hnd hnew
    rw [List.foldl_cons]
    rw [ih (aset m (compositeKey cols) []) (by simpa using hnd.of_cons) ?_]
    · rw [keys_aset_not_mem m _ _ (hnew _ (by simp))]
      simp
    · intro k hk
      rw [keys_aset_not_mem m _ _ (hnew _ (by simp))]
      simp only [List.mem_append, List.mem_singleton, not_or]
      refine ⟨hnew k (by simp [hk]), ?_⟩
      intro hkk
      subst hkk
      simp only [List.map_cons, List.nodup_cons] at hnd
      exact hnd.1 hk

theorem keys_initUniqueValues (unique : List (List String))
    (hnd : (unique.map compositeKey).Nodup) :
    (initUniqueValues unique).map Prod.fst = unique.map compositeKey := by
  unfold initUniqueValues
  simpa using keys_foldInit unique [] hnd (by simp)

theorem keys_trackRowGroups (m : UniqueValues) (unique : List (List String)) (row : Row)
    (rn : Nat) (h : ∀ g ∈ unique, compositeKey g ∈ m.map Prod.fst) :
    (trackRowGroups m unique row rn).map Prod.fst = m.map Prod.fst := by
  unfold trackRowGroups
  induction unique generalizing m with
  | nil => rfl
  | cons cols rest ih =>
    rw [List.foldl_cons]
    have hstep : (stepGroup m cols row rn).map Prod.fst = m.map Prod.fst :=
      keys_aset_mem _ _ _ (h cols (by simp))
    rw [ih (stepGroup m cols row rn) ?_, hstep]
    intro g hg
    rw [hstep]
    exact h g (by simp [hg])

theorem keys_trackAllFrom (unique : List (List String)) :
    ∀ (data : List Row) (i : Nat) (m : UniqueValues),
      (∀ g ∈ unique, compositeKey g ∈ m.map Prod.fst) →
      (trackAllFrom unique i m data).map Prod.fst = m.map Prod.fst := by
  intro data
  induction data with
  | nil =>
    intro i m _
    rfl
  | cons row rest ih =>
    intro i m h
    rw [trackAllFrom]
    have hkeys := keys_trackRowGroups m unique row (i + 2) h
    rw [ih (i + 1) _ ?_, hkeys]
    intro g hg
    rw [hkeys]
    exact h g hg

theorem keys_finalMap (data : List Row) (unique : List (List String)) :
    (finalMap data unique).map Prod.fst = (initUniqueValues unique).map Prod.fst :=
  keys_trackAllFrom unique data 0 _ (fun g hg => mem_keys_initUniqueValues unique g hg)

theorem length_finalMap_of_nodup (data : List Row) (unique : List (List String))
    (hnd : (unique.map compositeKey).Nodup) :
    (finalMap data unique).length = unique.length := by
  have h1 : (finalMap data unique).map Prod.fst = unique.map compositeKey := by
    rw [keys_finalMap, keys_initUniqueValues unique hnd]
  have h2 := congrArg List.length h1
  simpa using h2

/-! ## Rounding lemmas -/

theorem jsRound100_mono (T k k' : Nat) (h : k ≤ k') : jsRound100 k T ≤ jsRound100 k' T := by
  unfold jsRound100
  exact Nat.div_le_div_right (by omega)

theorem jsRound100_zero (T : Nat) (h : 1 ≤ T) : jsRound100 0 T = 0 := by
  unfold jsRound100
  rw [Nat.mul_zero, Nat.zero_add]
  exact Nat.div_eq_of_lt (by omega)

theorem jsRound100_full (T : Nat) (h : 1 ≤ T) : jsRound100 T T = 100 := by
  unfold jsRound100
  have : 200 * T + T = 2 * T * 100 + T := by ring
  rw [this, Nat.mul_add_div (by omega), Nat.div_eq_of_lt (by omega)]

/-! ## Claim C6 -/

/-- C6: `validateHeader(S, H)` returns false iff some key of `S` is absent
from the trimmed elements of `H`; when every key is present it returns true
even if `H` contains extra headers beyond the schema's keys. -/
theorem claim6_header_reconcile (schema : Schema) (header : List String) :
    (validateHeader schema header = false ↔
      ∃ k ∈ schema.map Prod.fst, k ∉ header.map jsTrim) ∧
    ((∀ k ∈ schema.map Prod.fst, k ∈ header.map jsTrim) →
      validateHeader schema header = true) := by
  have hbase : validateHeader schema header = false ↔
      ∃ k ∈ schema.map Prod.fst, k ∉ header.map jsTrim := by
    unfold validateHeader
    constructor
    · intro h
      by_cases hlen :
          0 < ((schema.map Prod.fst).filter
            (fun h => !(header.map jsTrim).contains h)).length
      · obtain ⟨k, hk⟩ := List.exists_mem_of_length_pos hlen
        have := List.of_mem_filter hk
        refine ⟨k, List.mem_of_mem_filter hk, ?_⟩
        intro hmem
        rw [Bool.not_eq_eq_eq_not, Bool.not_true, ← Bool.not_eq_true] at this
        exact this (List.elem_iff.mpr hmem)
      · rw [if_neg hlen] at h
        exact absurd h (by simp)
    · intro ⟨k, hk, hnot⟩
      have hkc : (header.map jsTrim).contains k = false := by
        rw [← Bool.not_eq_true]
        intro hc
        exact hnot (List.elem_iff.mp hc)
      have : k ∈ (schema.map Prod.fst).filter
          (fun h => !(header.map jsTrim).contains h) := by
        apply List.mem_filter.mpr
        refine ⟨hk, ?_⟩
        rw [hkc]
        rfl
      rw [if_pos (List.length_pos.mpr (List.ne_nil_of_mem this))]
  refine ⟨hbase, ?_⟩
  intro hall
  cases hval : validateHeader schema header with
  | false =>
    obtain ⟨k, hk, hnot⟩ := hbase.mp hval
    exact absurd (hall k hk) hnot
  | true => rfl

/-- Witness for C6 at a concrete schema and header: a missing `"b"` makes the
reconciler fail, and trimming plus extra headers still succeed. -/
theorem claim6_witness :
    validateHeader [("a", {}), ("b", {})] [" a ", "extra"] = false ∧
    validateHeader [("a", {})] [" a ", "extra"] = true := by
  constructor
  · exact (claim6_header_reconcile [("a", {}), ("b", {})] [" a ", "extra"]).1.mpr
      ⟨"b", by simp, by decide⟩
  · exact (claim6_header_reconcile [("a", {})] [" a ", "extra"]).2
      (by intro k hk; simp at hk; subst hk; decide)

/-! ## Claim C3 -/

/-- C3 (amended): for a run over `N` rows and `M` constraint groups with
`N + M ≥ 1` and pairwise-distinct constraint keys, the progress values
written during the run are exactly `round(k / (N+M) * 100)` for
`k = 0, ..., N+M`: a non-decreasing sequence from 0 to 100 with exactly
`N + M` increment events. -/
theorem claim3_progress_monotone (data : List Row) (schema : Schema)
    (unique : List (List String)) (res : RunResult)
    (hres : validateData data schema unique none = .ok res)
    (hT : 1 ≤ data.length + unique.length)
    (hnd : (unique.map compositeKey).Nodup) :
    res.trace = (List.range (data.length + unique.length + 1)).map
      (fun k => jsRound100 k (data.length + unique.length)) ∧
    List.Chain' (· ≤ ·) res.trace ∧
    res.trace.head? = some 0 ∧
    res.trace.getLast? = some 100 ∧
    res.trace.length = (data.length + unique.length) + 1 := by
  rw [validateData_none_eq] at hres
  have hres' := (Except.ok.injEq _ _).mp hres
  subst hres'
  have hE : (finalMap data unique).length = unique.length :=
    length_finalMap_of_nodup data unique hnd
  have htr : (normalResult data schema unique).trace =
      (List.range (data.length + unique.length + 1)).map
        (fun k => jsRound100 k (data.length + unique.length)) := by
    unfold normalResult
    simp only [hE]
    rw [List.range_succ_eq_map, List.map_cons, List.map_map]
    rw [jsRound100_zero _ hT]
    refine congrArg _ ?_
    unfold traceSeg
    apply List.map_congr_left
    intro k _
    simp only [Function.comp_apply, Nat.succ_eq_add_one]
    ring_nf
  refine ⟨htr, ?_, ?_, ?_, ?_⟩
  · rw [htr, List.chain'_map]
    have : (data.length + unique.length + 1) = (data.length + unique.length).succ := rfl
    rw [this, List.chain'_range_succ]
    intro m _
    exact jsRound100_mono _ m m.succ (Nat.le_succ m)
  · rw [htr, List.range_succ_eq_map]
    simp [jsRound100_zero _ hT]
  · rw [htr, List.range_succ, List.map_append, List.map_singleton, List.getLast?_concat]
    simp [jsRound100_full _ hT]
  · rw [htr]
    simp

/-- Counterexample to C3 as stated: one row and the two constraint groups
`[["id"], ["id"]]` share the constraint key `"id"`, so resolution iterates a
single `uniqueValues` entry.  The run performs only 2 increment events (not
`N + M = 3`) and its progress trace `[0, 33, 67]` never reaches 100. -/
theorem claim3_counterexample :
    validateData [[("id", Value.vStr "1")]] [] [["id"], ["id"]] none =
      .ok ⟨[⟨2, "id", "Duplicate value found: 1 in rows 2, 2", .DUPLICATE⟩,
            ⟨2, "id", "Duplicate value found: 1 in rows 2, 2", .DUPLICATE⟩],
           [[]], [0, 33, 67]⟩ ∧
    ¬ (([0, 33, 67] : List Nat).getLast? = some 100) ∧
    ¬ (([0, 33, 67] : List Nat).length = (1 + 2) + 1) := by
  refine ⟨by rfl, by decide, by decide⟩

/-- Witness for C3 at a concrete run: two rows and one constraint group give
the trace `[0, 33, 67, 100]`. -/
theorem claim3_witness :
    validateData [[("id", Value.vStr "1")], [("id", Value.vStr "2")]] [] [["id"]] none =
      .ok ⟨[], [[], []], [0, 33, 67, 100]⟩ ∧
    List.Chain' (· ≤ ·) ([0, 33, 67, 100] : List Nat) ∧
    ([0, 33, 67, 100] : List Nat).getLast? = some 100 := by
  have h := claim3_progress_monotone [[("id", Value.vStr "1")], [("id", Value.vStr "2")]]
    [] [["id"]] ⟨[], [[], []], [0, 33, 67, 100]⟩ (by rfl) (by decide) (by decide)
  exact ⟨by rfl, h.2.1, h.2.2.2.1⟩

/-! ## Claim C4 -/

/-- C4: when the cancellation flag is first observed set at check number `c`
(the checks are the start of each row iteration and of each resolution
iteration), `validateData` raises the cancellation signal carrying exactly
the errors accumulated so far; in particular a flag observed before the
first row yields zero errors, and a flag first observed after the first row
yields exactly that row's errors. -/
theorem claim4_cancellation (data : List Row) (schema : Schema)
    (unique : List (List String)) :
    (∀ c, c < data.length + (finalMap data unique).length →
      validateData data schema unique (some c) =
        .error (accumulatedErrors data schema unique c)) ∧
    (0 < data.length + (finalMap data unique).length →
      validateData data schema unique (some 0) = .error []) ∧
    (∀ row rest, data = row :: rest →
      1 < data.length + (finalMap data unique).length →
      validateData data schema unique (some 1) = .error (rowErrors schema 2 row)) := by
  have hmain : ∀ c, c < data.length + (finalMap data unique).length →
      validateData data schema unique (some c) =
        .error (accumulatedErrors data schema unique c) := by
    intro c hc
    unfold validateData
    by_cases hrow : c < data.length
    · rw [runRows_cancel schema unique _ c data 0 _ (Nat.zero_le c) (by omega)]
      unfold accumulatedErrors
      rw [if_pos (le_of_lt hrow)]
      simp [allRowsErrors]
    · have hge : data.length ≤ c := by omega
      rw [runRows_some_ge schema unique _ c data 0 _ (by omega)]
      rw [runRows_none]
      simp only []
      rw [runGroups_cancel _ data.length c _ 0 _ (by omega) ?hlt]
      case hlt =>
        simp only [Nat.add_zero]
        have : trackAllFrom unique 0 (initUniqueValues unique) data = finalMap data unique :=
          rfl
        rw [this]
        omega
      unfold accumulatedErrors
      by_cases hceq : c ≤ data.length
      · have hceq' : c = data.length := by omega
        subst hceq'
        rw [if_pos (le_refl _)]
        have h0 : data.length - data.length - 0 = 0 := by omega
        rw [h0]
        simp [allRowsErrors, allDupErrors, finalMap, List.take_length]
      · rw [if_neg hceq]
        have : trackAllFrom unique 0 (initUniqueValues unique) data = finalMap data unique :=
          rfl
        rw [this]
        have : c - data.length - 0 = c - data.length := by omega
        rw [this]
        simp [allRowsErrors]
  refine ⟨hmain, ?_, ?_⟩
  · intro hpos
    rw [hmain 0 (by omega)]
    unfold accumulatedErrors
    rw [if_pos (Nat.zero_le _)]
    simp [allRowsErrors, rowsErrorsFrom]
  · intro row rest hdata hlt
    rw [hmain 1 (by omega)]
    unfold accumulatedErrors
    rw [if_pos (by subst hdata; simp)]
    subst hdata
    simp [allRowsErrors, rowsErrorsFrom]

/-- Witness for C4 at a concrete run: a required `"id"` column, an empty
first cell and two rows; cancelling at check 0 carries no errors, cancelling
at check 1 carries exactly the first row's REQUIRED error. -/
theorem claim4_witness :
    validateData [[("id", Value.vStr "")], [("id", Value.vStr "x")]]
      [("id", { required := true })] [] (some 0) = .error [] ∧
    validateData [[("id", Value.vStr "")], [("id", Value.vStr "x")]]
      [("id", { required := true })] [] (some 1) =
        .error [⟨2, "id", "This field is required", .REQUIRED⟩] := by
  have h := claim4_cancellation [[("id", Value.vStr "")], [("id", Value.vStr "x")]]
    [("id", { required := true })] []
  constructor
  · exact h.2.1 (by simp [finalMap, initUniqueValues, trackAllFrom, trackRowGroups])
  · have h1 := h.2.2 [("id", Value.vStr "")] [[("id", Value.vStr "x")]] rfl
      (by simp [finalMap, initUniqueValues, trackAllFrom, trackRowGroups])
    rw [h1]
    rfl

/-! ## Claim C5 -/

theorem aget?_processRow (schema : Schema) (row : Row) (col : String)
    (h : col ∈ schema.map Prod.fst) :
    aget? (processRow schema row) col = some (trimIfString (jsLookup row col)) := by
  induction schema with
  | nil => simp at h
  | cons p rest ih =>
    obtain ⟨c, r⟩ := p
    rw [processRow, List.map_cons, aget?_cons]
    by_cases hc : c = col
    · rw [if_pos hc, hc]
    · rw [if_neg hc]
      simp only [List.map_cons, List.mem_cons] at h
      rcases h with h | h
      · exact absurd h.symm hc
      · exact ih h

/-- C5: an uncancelled run returns one processed row per input row, in input
order; each processed row's keys are exactly the schema's declared columns
(in schema order), string cell values are trimmed and any non-string cell
value is passed through unchanged. -/
theorem claim5_processed_rows (data : List Row) (schema : Schema)
    (unique : List (List String)) (res : RunResult)
    (hres : validateData data schema unique none = .ok res) :
    res.processedData.length = data.length ∧
    (∀ (i : Nat) (row : Row), data[i]? = some row →
      res.processedData[i]? = some (processRow schema row)) ∧
    (∀ row, (processRow schema row).map Prod.fst = schema.map Prod.fst) ∧
    (∀ row col s, col ∈ schema.map Prod.fst → jsLookup row col = .vStr s →
      aget? (processRow schema row) col = some (.vStr (jsTrim s))) ∧
    (∀ row col, col ∈ schema.map Prod.fst → isStringV (jsLookup row col) = false →
      aget? (processRow schema row) col = some (jsLookup row col)) := by
  rw [validateData_none_eq] at hres
  have hres' := (Except.ok.injEq _ _).mp hres
  subst hres'
  refine ⟨?_, ?_, ?_, ?_, ?_⟩
  · simp [normalResult]
  · intro i row hrow
    simp [normalResult, List.getElem?_map, hrow]
  · intro row
    simp [processRow, List.map_map]
  · intro row col s hcol hs
    rw [aget?_processRow schema row col hcol, hs]
    rfl
  · intro row col hcol hns
    rw [aget?_processRow schema row col hcol]
    cases hv : jsLookup row col <;> simp_all [isStringV, trimIfString]

/-- Witness for C5 at a concrete run: one row, a string cell that gets
trimmed and a numeric cell passed through. -/
theorem claim5_witness :
    (normalResult [[("name", Value.vStr "  ab "), ("age", Value.vNum 7)]]
      [("name", {}), ("age", {})] []).processedData.length = 1 ∧
    aget? (processRow [("name", {}), ("age", {})]
      [("name", Value.vStr "  ab "), ("age", Value.vNum 7)]) "name" =
        some (Value.vStr "ab") ∧
    aget? (processRow [("name", {}), ("age", {})]
      [("name", Value.vStr "  ab "), ("age", Value.vNum 7)]) "age" =
        some (Value.vNum 7) := by
  have h := claim5_processed_rows [[("name", Value.vStr "  ab "), ("age", Value.vNum 7)]]
    [("name", {}), ("age", {})] [] (normalResult [[("name", Value.vStr "  ab "),
      ("age", Value.vNum 7)]] [("name", {}), ("age", {})] [])
    (validateData_none_eq _ _ _)
  refine ⟨h.1, ?_, ?_⟩
  · have hx := h.2.2.2.1 [("name", Value.vStr "  ab "), ("age", Value.vNum 7)] "name" "  ab "
      (by simp) (by rfl)
    rw [hx]
    rfl
  · have hx := h.2.2.2.2 [("name", Value.vStr "  ab "), ("age", Value.vNum 7)] "age"
      (by simp) (by rfl)
    rw [hx]
    rfl

/-! ## Claim C9 -/

/-- C9: `validateExcelFile` fails with a structural error, before any row
processing and carrying no partial data, exactly on decode failure, an empty
decoded dataset, or header-reconciliation failure (in that checking order);
otherwise it returns the untouched decoded rows alongside the engine's
errors and processed rows. -/
theorem claim9_structural_failures (schema : Schema) (unique : List (List String)) :
    (∀ m, validateExcelFile (.error m) schema unique none =
      .error (.decodeError ("Invalid Excel file format: " ++ m))) ∧
    (∀ header, validateExcelFile (.ok ([], header)) schema unique none =
      .error .emptyData) ∧
    (∀ rows header, rows ≠ [] → validateHeader schema header = false →
      validateExcelFile (.ok (rows, header)) schema unique none = .error .headerMismatch) ∧
    (∀ rows header res, rows ≠ [] → validateHeader schema header = true →
      validateData rows schema unique none = .ok res →
      validateExcelFile (.ok (rows, header)) schema unique none =
        .ok ⟨rows, res.processedData, res.errors⟩) := by
  refine ⟨?_, ?_, ?_, ?_⟩
  · intro m
    rfl
  · intro header
    rfl
  · intro rows header hne hh
    simp only [validateExcelFile]
    rw [if_neg (by simpa using hne), hh]
    simp
  · intro rows header res hne hh hval
    simp only [validateExcelFile]
    rw [if_neg (by simpa using hne), hh, if_pos rfl, hval]

/-- Witness for C9 at concrete inputs: each of the three structural failures
at an explicit input, and a successful pass-through of the decoded rows. -/
theorem claim9_witness :
    validateExcelFile (.error "bad zip") [("a", {})] [] none =
      .error (.decodeError "Invalid Excel file format: bad zip") ∧
    validateExcelFile (.ok ([], ["a"])) [("a", {})] [] none = .error .emptyData ∧
    validateExcelFile (.ok ([[("b", Value.vStr "x")]], ["b"])) [("a", {})] [] none =
      .error .headerMismatch ∧
    validateExcelFile (.ok ([[("a", Value.vStr " x ")]], ["a"])) [("a", {})] [] none =
      .ok ⟨[[("a", Value.vStr " x ")]], [[("a", Value.vStr "x")]], []⟩ := by
  have h := claim9_structural_failures [("a", {})] []
  refine ⟨h.1 "bad zip", h.2.1 ["a"], ?_, ?_⟩
  · exact h.2.2.1 [[("b", Value.vStr "x")]] ["b"] (by simp) (by rfl)
  · exact h.2.2.2 [[("a", Value.vStr " x ")]] ["a"]
      ⟨[], [[("a", Value.vStr "x")]], [0, 100]⟩ (by simp) (by rfl) (by rfl)

/-! ## Shape and counting lemmas for the error lists -/

theorem mem_ite_singleton {α : Type} {c : Prop} [Decidable c] {x e : α}
    (h : e ∈ (if c then [x] else ([] : List α))) : e = x := by
  split at h
  · simpa using h
  · simp at h

theorem cellErrors_shape (col : String) (rule : FieldRule) (rn : Nat) (value : Value)
    (row : Row) : ∀ e ∈ cellErrors col rule rn value row, e.row = rn ∧ e.column = col := by
  intro e he
  unfold cellErrors at he
  split at he
  · simp only [List.mem_singleton] at he
    subst he
    exact ⟨rfl, rfl⟩
  · split at he
    · simp only [List.mem_singleton] at he
      subst he
      exact ⟨rfl, rfl⟩
    · simp only [List.mem_append] at he
      rcases he with (hv | ha) | hc
      · split at hv
        · split at hv
          · simp only [List.mem_append] at hv
            rcases hv with (h1 | h2) | h3
            · obtain rfl := mem_ite_singleton h1
              exact ⟨rfl, rfl⟩
            · obtain rfl := mem_ite_singleton h2
              exact ⟨rfl, rfl⟩
            · obtain rfl := mem_ite_singleton h3
              exact ⟨rfl, rfl⟩
          · simp at hv
        · simp at hv
      · split at ha
        · obtain rfl := mem_ite_singleton ha
          exact ⟨rfl, rfl⟩
        · simp at ha
      · split at hc
        · split at hc
          · split at hc
            · simp at hc
            · simp only [List.mem_singleton] at hc
              subst hc
              exact ⟨rfl, rfl⟩
          · simp at hc
        · simp at hc

theorem mem_rowErrors_shape (schema : Schema) (rn : Nat) (row : Row) :
    ∀ e ∈ rowErrors schema rn row, e.row = rn ∧ e.column ∈ schema.map Prod.fst := by
  intro e he
  unfold rowErrors at he
  simp only [List.mem_flatten, List.mem_map] at he
  obtain ⟨l, ⟨p, hp, rfl⟩, hel⟩ := he
  have h := cellErrors_shape p.1 p.2 rn (trimIfString (jsLookup row p.1)) row e hel
  refine ⟨h.1, ?_⟩
  rw [h.2]
  exact List.mem_map.mpr ⟨p, hp, rfl⟩

theorem mem_rowsErrorsFrom_row_ge (schema : Schema) :
    ∀ (l : List Row) (i : Nat), ∀ e ∈ rowsErrorsFrom schema i l, i + 2 ≤ e.row := by
  intro l
  induction l with
  | nil =>
    intro i e he
    simp [rowsErrorsFrom] at he
  | cons row rest ih =>
    intro i e he
    rw [rowsErrorsFrom, List.mem_append] at he
    rcases he with he | he
    · exact le_of_eq (mem_rowErrors_shape schema (i + 2) row e he).1.symm
    · have := ih (i + 1) e he
      omega

theorem mem_dupErrorsOf (key : String) (vm : ValueMap) :
    ∀ e ∈ dupErrorsOf key vm, e.column = key ∧ e.errorType = .DUPLICATE := by
  intro e he
  unfold dupErrorsOf at he
  simp only [List.mem_flatten, List.mem_map] at he
  obtain ⟨l, ⟨p, hp, rfl⟩, hel⟩ := he
  split at hel
  · obtain ⟨r, _, rfl⟩ := List.mem_map.mp hel
    exact ⟨rfl, rfl⟩
  · simp at hel

theorem mem_allDupErrors (m : UniqueValues) :
    ∀ e ∈ allDupErrors m, e.errorType = .DUPLICATE ∧ e.column ∈ m.map Prod.fst := by
  intro e he
  unfold allDupErrors at he
  simp only [List.mem_flatten, List.mem_map] at he
  obtain ⟨l, ⟨p, hp, rfl⟩, hel⟩ := he
  have h := mem_dupErrorsOf p.1 p.2 e hel
  refine ⟨h.2, ?_⟩
  rw [h.1]
  exact List.mem_map.mpr ⟨p, hp, rfl⟩

theorem countRC_append (a b : List ExcelCellValidationError) (r : Nat) (c : String)
    (et : ExcelCellErrorType) : countRC (a ++ b) r c et = countRC a r c et + countRC b r c et := by
  simp [countRC, List.filter_append]

theorem countRC_eq_zero (errs : List ExcelCellValidationError) (r : Nat) (c : String)
    (et : ExcelCellErrorType)
    (h : ∀ e ∈ errs, ¬(e.row = r ∧ e.column = c ∧ e.errorType = et)) :
    countRC errs r c et = 0 := by
  unfold countRC
  rw [List.length_eq_zero, List.filter_eq_nil_iff]
  intro e he
  simp only [Bool.and_eq_true, beq_iff_eq]
  intro hcontra
  exact h e he ⟨hcontra.1.1, hcontra.1.2, hcontra.2⟩

theorem countRC_singleton (e : ExcelCellValidationError) (r : Nat) (c : String)
    (et : ExcelCellErrorType) :
    countRC [e] r c et = if e.row = r ∧ e.column = c ∧ e.errorType = et then 1 else 0 := by
  unfold countRC
  by_cases h : e.row = r ∧ e.column = c ∧ e.errorType = et
  · rw [if_pos h]
    have hcond : (e.row == r && e.column == c && e.errorType == et) = true := by
      simp [h.1, h.2.1, h.2.2]
    rw [List.filter_singleton, hcond]
    rfl
  · rw [if_neg h]
    have hcond : (e.row == r && e.column == c && e.errorType == et) = false := by
      rw [← Bool.not_eq_true]
      simp only [Bool.and_eq_true, beq_iff_eq]
      intro hcontra
      exact h ⟨hcontra.1.1, hcontra.1.2, hcontra.2⟩
    rw [List.filter_singleton, hcond]
    rfl

theorem countRC_of_ne_row (errs : List ExcelCellValidationError) (rn r : Nat) (c : String)
    (et : ExcelCellErrorType) (hrow : ∀ e ∈ errs, e.row = rn) (hne : rn ≠ r) :
    countRC errs r c et = 0 := by
  apply countRC_eq_zero
  intro e he hcontra
  exact hne ((hrow e he) ▸ hcontra.1)

theorem countRC_rowsErrorsFrom (schema : Schema) (c : String) (et : ExcelCellErrorType) :
    ∀ (l : List Row) (s j : Nat) (row : Row), l[j]? = some row →
      countRC (rowsErrorsFrom schema s l) (s + j + 2) c et
        = countRC (rowErrors schema (s + j + 2) row) (s + j + 2) c et := by
  intro l
  induction l with
  | nil =>
    intro s j row hrow
    simp at hrow
  | cons hd tl ih =>
    intro s j row hrow
    rw [rowsErrorsFrom, countRC_append]
    cases j with
    | zero =>
      simp only [List.getElem?_cons_zero, Option.some.injEq] at hrow
      subst hrow
      have htl : countRC (rowsErrorsFrom schema (s + 1) tl) (s + 0 + 2) c et = 0 := by
        apply countRC_eq_zero
        intro e he hcontra
        have := mem_rowsErrorsFrom_row_ge schema tl (s + 1) e he
        omega
      rw [htl]
      simp only [Nat.add_zero]
    | succ j' =>
      simp only [List.getElem?_cons_succ] at hrow
      have hhd : countRC (rowErrors schema (s + 2) hd) (s + (j' + 1) + 2) c et = 0 := by
        apply countRC_of_ne_row _ (s + 2) _ _ _ (fun e he => (mem_rowErrors_shape _ _ _ e he).1)
        omega
      rw [hhd]
      have := ih (s + 1) j' row hrow
      have harith : s + 1 + j' + 2 = s + (j' + 1) + 2 := by omega
      rw [harith] at this
      omega

theorem mem_rowsErrorsFrom_of_mem (schema : Schema) :
    ∀ (l : List Row) (s j : Nat) (row : Row) (e : ExcelCellValidationError),
      l[j]? = some row → e ∈ rowErrors schema (s + j + 2) row →
      e ∈ rowsErrorsFrom schema s l := by
  intro l
  induction l with
  | nil =>
    intro s j row e hrow
    simp at hrow
  | cons hd tl ih =>
    intro s j row e hrow he
    rw [rowsErrorsFrom, List.mem_append]
    cases j with
    | zero =>
      simp only [List.getElem?_cons_zero, Option.some.injEq] at hrow
      subst hrow
      exact Or.inl he
    | succ j' =>
      simp only [List.getElem?_cons_succ] at hrow
      refine Or.inr (ih (s + 1) j' row e hrow ?_)
      have harith : s + 1 + j' + 2 = s + (j' + 1) + 2 := by omega
      rw [harith]
      exact he

theorem countRC_rowErrors_of_nodup (schema : Schema) (rn : Nat) (row : Row)
    (hnd : (schema.map Prod.fst).Nodup) (col : String) (rule : FieldRule)
    (hmem : (col, rule) ∈ schema) (et : ExcelCellErrorType) :
    countRC (rowErrors schema rn row) rn col et
      = countRC (cellErrors col rule rn (trimIfString (jsLookup row col)) row) rn col et := by
  induction schema with
  | nil => simp at hmem
  | cons p rest ih =>
    obtain ⟨c, r⟩ := p
    rw [rowErrors] at *
    rw [List.map_cons, List.flatten_cons, countRC_append]
    simp only [List.map_cons, List.nodup_cons] at hnd
    rcases List.mem_cons.mp hmem with hm | hm
    · injection hm with hc2 hr2
      subst hc2
      subst hr2
      have htail : countRC (rowErrors rest rn row) rn col et = 0 := by
        apply countRC_eq_zero
        intro e he hcontra
        have := (mem_rowErrors_shape rest rn row e he).2
        rw [hcontra.2.1] at this
        exact hnd.1 this
      rw [rowErrors] at htail
      rw [htail]
      simp
    · have hcol : col ∈ rest.map Prod.fst := List.mem_map.mpr ⟨(col, rule), hm, rfl⟩
      have hcne : c ≠ col := fun h => hnd.1 (h ▸ hcol)
      have hhead : countRC (cellErrors c r rn (trimIfString (jsLookup row c)) row) rn col et
          = 0 := by
        apply countRC_eq_zero
        intro e he hcontra
        exact hcne ((cellErrors_shape c r rn _ row e he).2.symm ▸ hcontra.2.1.symm ▸ rfl)
      rw [hhead, ih hnd.2 hm]
      omega

theorem cellErrors_required_eq (col : String) (rule : FieldRule) (rn : Nat) (value : Value)
    (row : Row) (hreq : rule.required = true) (hempty : requiredEmpty value = true) :
    cellErrors col rule rn value row =
      [⟨rn, col, "This field is required", .REQUIRED⟩] := by
  unfold cellErrors
  rw [if_pos (by rw [hreq, hempty]; rfl)]

theorem mem_rowErrors_of_mem_cell (schema : Schema) (rn : Nat) (row : Row) (col : String)
    (rule : FieldRule) (hmem : (col, rule) ∈ schema) (e : ExcelCellValidationError)
    (he : e ∈ cellErrors col rule rn (trimIfString (jsLookup row col)) row) :
    e ∈ rowErrors schema rn row := by
  unfold rowErrors
  exact List.mem_flatten.mpr
    ⟨cellErrors col rule rn (trimIfString (jsLookup row col)) row,
     List.mem_map.mpr ⟨(col, rule), hmem, rfl⟩, he⟩

/-! ## Claim C1 -/

/-- C1: for a row whose trimmed cell value under a `required = true` rule is
null, undefined or the empty string, an uncancelled run emits exactly one
REQUIRED error for that row/column, with message "This field is required",
and no TYPE_MISMATCH, EMAIL_RULE, MOBILE_RULE, EMPLOYEE_RULE,
ACCEPTED_VALUES or CUSTOM_VALIDATION error for that same row/column. -/
theorem claim1_required_exclusive (data : List Row) (schema : Schema)
    (unique : List (List String)) (res : RunResult)
    (hres : validateData data schema unique none = .ok res)
    (hnd : (schema.map Prod.fst).Nodup)
    (i : Nat) (row : Row) (hrow : data[i]? = some row)
    (col : String) (rule : FieldRule) (hmem : (col, rule) ∈ schema)
    (hreq : rule.required = true)
    (hempty : requiredEmpty (trimIfString (jsLookup row col)) = true) :
    countRC res.errors (i + 2) col .REQUIRED = 1 ∧
    (⟨i + 2, col, "This field is required", .REQUIRED⟩ : ExcelCellValidationError)
      ∈ res.errors ∧
    countRC res.errors (i + 2) col .TYPE_MISMATCH = 0 ∧
    countRC res.errors (i + 2) col .EMAIL_RULE = 0 ∧
    countRC res.errors (i + 2) col .MOBILE_RULE = 0 ∧
    countRC res.errors (i + 2) col .EMPLOYEE_RULE = 0 ∧
    countRC res.errors (i + 2) col .ACCEPTED_VALUES = 0 ∧
    countRC res.errors (i + 2) col .CUSTOM_VALIDATION = 0 := by
  rw [validateData_none_eq] at hres
  have hres' := (Except.ok.injEq _ _).mp hres
  subst hres'
  have hcount : ∀ et, et ≠ .DUPLICATE →
      countRC (normalResult data schema unique).errors (i + 2) col et =
        countRC (cellErrors col rule (i + 2) (trimIfString (jsLookup row col)) row)
          (i + 2) col et := by
    intro et hnedup
    unfold normalResult
    simp only []
    rw [countRC_append]
    have hdup0 : countRC (allDupErrors (finalMap data unique)) (i + 2) col et = 0 := by
      apply countRC_eq_zero
      intro e he hcontra
      exact hnedup (hcontra.2.2 ▸ (mem_allDupErrors _ e he).1)
    rw [hdup0]
    have h1 := countRC_rowsErrorsFrom schema col et data 0 i row hrow
    simp only [Nat.zero_add] at h1
    rw [allRowsErrors, h1, countRC_rowErrors_of_nodup schema (i + 2) row hnd col rule hmem et]
    omega
  have hcell := cellErrors_required_eq col rule (i + 2)
    (trimIfString (jsLookup row col)) row hreq hempty
  refine ⟨?_, ?_, ?_, ?_, ?_, ?_, ?_, ?_⟩
  · rw [hcount .REQUIRED (by simp), hcell, countRC_singleton,
      if_pos ⟨rfl, rfl, rfl⟩]
  · have hin : (⟨i + 2, col, "This field is required", .REQUIRED⟩ :
        ExcelCellValidationError) ∈ cellErrors col rule (i + 2)
          (trimIfString (jsLookup row col)) row := by
      rw [hcell]
      simp
    have hin2 := mem_rowErrors_of_mem_cell schema (i + 2) row col rule hmem _ hin
    unfold normalResult
    simp only []
    apply List.mem_append_left
    have := mem_rowsErrorsFrom_of_mem schema data 0 i row _ hrow (by
      simp only [Nat.zero_add]
      exact hin2)
    exact this
  all_goals
    rw [hcount _ (by simp), hcell, countRC_singleton, if_neg (by simp)]

/-- Witness for C1 at a concrete run: a required `"id"` column missing from
the only row yields exactly the one REQUIRED error and no other error types
for that cell. -/
theorem claim1_witness :
    countRC (normalResult [[("note", Value.vStr "hi")]]
      [("id", { required := true }), ("note", {})] [["id"]]).errors 2 "id" .REQUIRED = 1 ∧
    countRC (normalResult [[("note", Value.vStr "hi")]]
      [("id", { required := true }), ("note", {})] [["id"]]).errors 2 "id" .EMAIL_RULE = 0 := by
  have h := claim1_required_exclusive [[("note", Value.vStr "hi")]]
    [("id", { required := true }), ("note", {})] [["id"]]
    (normalResult [[("note", Value.vStr "hi")]]
      [("id", { required := true }), ("note", {})] [["id"]])
    (validateData_none_eq _ _ _) (by simp) 0 [("note", Value.vStr "hi")] (by rfl)
    "id" { required := true } (by simp) rfl (by rfl)
  exact ⟨h.1, h.2.2.2.1⟩

theorem mem_of_aget? {β : Type} (m : List (String × β)) (k : String) (v : β)
    (h : aget? m k = some v) : (k, v) ∈ m := by
  induction m with
  | nil => simp [aget?] at h
  | cons hd tl ih =>
    obtain ⟨a, b⟩ := hd
    rw [aget?_cons] at h
    by_cases ha : a = k
    · rw [if_pos ha] at h
      simp only [Option.some.injEq] at h
      subst ha
      subst h
      exact List.mem_cons_self _ _
    · rw [if_neg ha] at h
      exact List.mem_cons_of_mem _ (ih h)

/-! ## Claim C2 -/

/-- C2 (amended): the concrete example — rows `[{id:"1"},{id:"2"},{id:"1"}]`
with constraint group `[["id"]]` yield exactly two DUPLICATE errors for rows
2 and 4, both with column `"id"` and message
"Duplicate value found: 1 in rows 2, 4", and none for the key `"2"` — and,
in general, for each group and each composite key held by more than one row,
one DUPLICATE error per listed row is emitted, sharing the message built
from the key and the comma-joined row numbers, with `column` set to the
group's column names joined by `"-"` and then trimmed. -/
theorem claim2_duplicate_errors :
    (validateData [[("id", Value.vStr "1")], [("id", Value.vStr "2")],
        [("id", Value.vStr "1")]] [] [["id"]] none =
      .ok ⟨[⟨2, "id", "Duplicate value found: 1 in rows 2, 4", .DUPLICATE⟩,
            ⟨4, "id", "Duplicate value found: 1 in rows 2, 4", .DUPLICATE⟩],
           [[], [], []], [0, 25, 50, 75, 100]⟩) ∧
    (∀ (data : List Row) (schema : Schema) (unique : List (List String)) (res : RunResult)
       (g : List String) (vm : ValueMap) (value : String) (rows : List Nat),
      validateData data schema unique none = .ok res →
      g ∈ unique →
      aget? (finalMap data unique) (compositeKey g) = some vm →
      (value, rows) ∈ vm → 1 < rows.length →
      ∀ r ∈ rows,
        (⟨r, compositeKey g, dupMsg value rows, .DUPLICATE⟩ : ExcelCellValidationError)
          ∈ res.errors) := by
  refine ⟨by rfl, ?_⟩
  intro data schema unique res g vm value rows hres hg hget hvr hlen r hr
  rw [validateData_none_eq] at hres
  have hres' := (Except.ok.injEq _ _).mp hres
  subst hres'
  unfold normalResult
  simp only []
  apply List.mem_append_right
  unfold allDupErrors
  apply List.mem_flatten.mpr
  refine ⟨dupErrorsOf (compositeKey g) vm,
    List.mem_map.mpr ⟨(compositeKey g, vm), mem_of_aget? _ _ _ hget, rfl⟩, ?_⟩
  unfold dupErrorsOf
  apply List.mem_flatten.mpr
  refine ⟨rows.map (fun r => (⟨r, compositeKey g, dupMsg value rows, .DUPLICATE⟩ :
      ExcelCellValidationError)), ?_, ?_⟩
  · apply List.mem_map.mpr
    refine ⟨(value, rows), hvr, ?_⟩
    rw [if_pos hlen]
  · exact List.mem_map.mpr ⟨r, hr, rfl⟩

/-- Counterexample to C2 as stated: the code sets the DUPLICATE `column` to
the group's column names joined by `"-"` and TRIMMED.  For the group
`[[" id"]]` over two rows both missing that column, the emitted errors carry
column `"id"`, not the joined names `" id"`. -/
theorem claim2_counterexample :
    validateData [[], []] [] [[" id"]] none =
      .ok ⟨[⟨2, "id", "Duplicate value found: NULL in rows 2, 3", .DUPLICATE⟩,
            ⟨3, "id", "Duplicate value found: NULL in rows 2, 3", .DUPLICATE⟩],
           [[], []], [0, 33, 67, 100]⟩ ∧
    String.intercalate "-" [" id"] = " id" ∧
    ([⟨2, "id", "Duplicate value found: NULL in rows 2, 3", .DUPLICATE⟩,
      ⟨3, "id", "Duplicate value found: NULL in rows 2, 3", .DUPLICATE⟩] :
        List ExcelCellValidationError).all (fun e => e.column != " id") = true := by
  refine ⟨by rfl, by rfl, by decide⟩

/-- Witness for C2's general clause at the spec's own example: row 2's
DUPLICATE error for key "1" is in the run's error list. -/
theorem claim2_witness :
    (⟨2, compositeKey ["id"], dupMsg "1" [2, 4], .DUPLICATE⟩ : ExcelCellValidationError)
      ∈ (normalResult [[("id", Value.vStr "1")], [("id", Value.vStr "2")],
          [("id", Value.vStr "1")]] [] [["id"]]).errors := by
  exact claim2_duplicate_errors.2
    [[("id", Value.vStr "1")], [("id", Value.vStr "2")], [("id", Value.vStr "1")]]
    [] [["id"]] _ ["id"] [("1", [2, 4]), ("2", [3])] "1" [2, 4]
    (validateData_none_eq _ _ _) (by simp) (by rfl) (by simp) (by decide) 2 (by simp)

/-! ## Claim C7 -/

/-- C7 (amended): for a column whose rule declares a custom validator, when
the trimmed cell value is non-null and neither the required check nor the
type check short-circuited the cell, the engine invokes the custom validator
with a single argument — the cell value; the optional row parameter is not
passed (it is received as `undefined`) — and when the result is not
literally `true` the returned fragment is merged with the current row number
and column name into a complete error record appended to the error list. -/
theorem claim7_custom_validator (data : List Row) (schema : Schema)
    (unique : List (List String)) (res : RunResult)
    (hres : validateData data schema unique none = .ok res)
    (i : Nat) (row : Row) (hrow : data[i]? = some row)
    (col : String) (rule : FieldRule)
    (hmem : (col, rule) ∈ schema)
    (f : Value → Option Row → CustomResult) (hf : rule.customValidator = some f)
    (hnn : jsNonNull (trimIfString (jsLookup row col)) = true)
    (hreqpass : (rule.required && requiredEmpty (trimIfString (jsLookup row col))) = false)
    (htypass : (typeTruthy rule.type && jsNonNull (trimIfString (jsLookup row col)) &&
      (typeofStr (trimIfString (jsLookup row col)) != rule.type.getD "")) = false)
    (m : String) (et : ExcelCellErrorType)
    (hfrag : f (trimIfString (jsLookup row col)) none = .fragment m et) :
    (⟨i + 2, col, m, et⟩ : ExcelCellValidationError) ∈ res.errors := by
  rw [validateData_none_eq] at hres
  have hres' := (Except.ok.injEq _ _).mp hres
  subst hres'
  have hcell : (⟨i + 2, col, m, et⟩ : ExcelCellValidationError) ∈
      cellErrors col rule (i + 2) (trimIfString (jsLookup row col)) row := by
    unfold cellErrors
    rw [if_neg (by rw [hreqpass]; simp), if_neg (by rw [htypass]; simp)]
    apply List.mem_append_right
    rw [hf]
    simp [hnn, hfrag]
  unfold normalResult
  simp only []
  apply List.mem_append_left
  have := mem_rowsErrorsFrom_of_mem schema data 0 i row _ hrow (by
    simp only [Nat.zero_add]
    exact mem_rowErrors_of_mem_cell schema (i + 2) row col rule hmem _ hcell)
  exact this

/-- Counterexample to C7 as stated: the engine calls
`rules.customValidator(value)` with ONE argument, so a validator that
succeeds when given a row and fails otherwise reports an error — under the
claimed two-argument invocation `(value, fullRow)` it would report none, as
the spec-worded variant `cellErrorsSpecRowArg` shows on the same input. -/
theorem claim7_counterexample :
    validateData [[("x", Value.vStr "a")]]
      [("x", { customValidator := some (fun _ r => match r with
          | some _ => .ok
          | none => .fragment "row missing" .CUSTOM_VALIDATION) })] [] none =
      .ok ⟨[⟨2, "x", "row missing", .CUSTOM_VALIDATION⟩],
           [[("x", Value.vStr "a")]], [0, 100]⟩ ∧
    cellErrorsSpecRowArg "x" { customValidator := some (fun _ r => match r with
          | some _ => .ok
          | none => .fragment "row missing" .CUSTOM_VALIDATION) } 2
      (trimIfString (jsLookup [("x", Value.vStr "a")] "x")) [("x", Value.vStr "a")] = [] ∧
    ([⟨2, "x", "row missing", .CUSTOM_VALIDATION⟩] : List ExcelCellValidationError) ≠ [] := by
  refine ⟨by rfl, by rfl, by simp⟩

/-- Witness for C7 at a concrete run: a validator that rejects the value
"bad" produces the merged error record in the run's error list. -/
theorem claim7_witness :
    (⟨2, "x", "custom says no", .CUSTOM_VALIDATION⟩ : ExcelCellValidationError) ∈
      (normalResult [[("x", Value.vStr "bad")]]
        [("x", { customValidator := some (fun v _ => match v with
            | .vStr "bad" => .fragment "custom says no" .CUSTOM_VALIDATION
            | _ => .ok) })] []).errors := by
  exact claim7_custom_validator [[("x", Value.vStr "bad")]]
    [("x", { customValidator := some (fun v _ => match v with
        | .vStr "bad" => .fragment "custom says no" .CUSTOM_VALIDATION
        | _ => .ok) })] [] _ (validateData_none_eq _ _ _) 0 [("x", Value.vStr "bad")]
    (by rfl) "x"
    { customValidator := some (fun v _ => match v with
        | .vStr "bad" => .fragment "custom says no" .CUSTOM_VALIDATION
        | _ => .ok) }
    (List.mem_cons_self _ _)
    (fun v _ => match v with
      | .vStr "bad" => .fragment "custom says no" .CUSTOM_VALIDATION
      | _ => .ok)
    rfl (by rfl) (by rfl) (by rfl) "custom says no" .CUSTOM_VALIDATION (by rfl)

/-! ## Claim C10 -/

/-- C10 (amended): for a column whose rule declares no custom validator, a
non-null cell value that is neither a string nor a number (e.g. a boolean)
produces no EMAIL_RULE, MOBILE_RULE or EMPLOYEE_RULE error even when the
corresponding validators are enabled; the email validator is evaluated only
for string values (a number never yields EMAIL_RULE), while the mobile and
employee-number validators are evaluated for both string and number values
(a failing number yields the corresponding error when it survives the
required and type checks). -/
theorem claim10_validator_kinds :
    (∀ (col : String) (rule : FieldRule) (rn : Nat) (b : Bool) (row : Row),
      rule.customValidator = none →
      ∀ e ∈ cellErrors col rule rn (.vBool b) row,
        e.errorType ≠ .EMAIL_RULE ∧ e.errorType ≠ .MOBILE_RULE ∧
          e.errorType ≠ .EMPLOYEE_RULE) ∧
    (∀ (col : String) (rule : FieldRule) (rn : Nat) (n : Int) (row : Row),
      rule.customValidator = none →
      ∀ e ∈ cellErrors col rule rn (.vNum n) row, e.errorType ≠ .EMAIL_RULE) ∧
    (∀ (col : String) (rule : FieldRule) (rn : Nat) (n : Int) (row : Row) (vs : Validators),
      rule.validators = some vs → vs.isMobileNumber = true →
      (typeTruthy rule.type && (typeofStr (.vNum n) != rule.type.getD "")) = false →
      isMobileNumber (.vNum n) = false →
      (⟨rn, col, "Invalid mobile number", .MOBILE_RULE⟩ : ExcelCellValidationError)
        ∈ cellErrors col rule rn (.vNum n) row) ∧
    (∀ (col : String) (rule : FieldRule) (rn : Nat) (n : Int) (row : Row) (vs : Validators),
      rule.validators = some vs → vs.isEmployeeNumber = true →
      (typeTruthy rule.type && (typeofStr (.vNum n) != rule.type.getD "")) = false →
      isEmployeeNumber (.vNum n) = false →
      (⟨rn, col, "Invalid employee number", .EMPLOYEE_RULE⟩ : ExcelCellValidationError)
        ∈ cellErrors col rule rn (.vNum n) row) ∧
    (∀ (col : String) (rule : FieldRule) (rn : Nat) (s : String) (row : Row) (vs : Validators),
      rule.validators = some vs → vs.isMobileNumber = true →
      (rule.required && requiredEmpty (.vStr s)) = false →
      (typeTruthy rule.type && (typeofStr (.vStr s) != rule.type.getD "")) = false →
      isMobileNumber (.vStr s) = false →
      (⟨rn, col, "Invalid mobile number", .MOBILE_RULE⟩ : ExcelCellValidationError)
        ∈ cellErrors col rule rn (.vStr s) row) ∧
    (∀ (col : String) (rule : FieldRule) (rn : Nat) (s : String) (row : Row) (vs : Validators),
      rule.validators = some vs → vs.isEmployeeNumber = true →
      (rule.required && requiredEmpty (.vStr s)) = false →
      (typeTruthy rule.type && (typeofStr (.vStr s) != rule.type.getD "")) = false →
      isEmployeeNumber (.vStr s) = false →
      (⟨rn, col, "Invalid employee number", .EMPLOYEE_RULE⟩ : ExcelCellValidationError)
        ∈ cellErrors col rule rn (.vStr s) row) := by
  have hnoformat : ∀ (col : String) (rule : FieldRule) (rn : Nat) (v : Value) (row : Row),
      rule.customValidator = none → isStringV v = false → isStrOrNumV v = false →
      ∀ e ∈ cellErrors col rule rn v row,
        e.errorType = .REQUIRED ∨ e.errorType = .TYPE_MISMATCH ∨
          e.errorType = .ACCEPTED_VALUES := by
    intro col rule rn v row hcv hs hsn e he
    unfold cellErrors at he
    split at he
    · simp only [List.mem_singleton] at he
      subst he
      exact Or.inl rfl
    · split at he
      · simp only [List.mem_singleton] at he
        subst he
        exact Or.inr (Or.inl rfl)
      · simp only [List.mem_append] at he
        rcases he with (hv | ha) | hc
        · split at hv
          · split at hv
            · simp [hs, hsn] at hv
            · simp at hv
          · simp at hv
        · split at ha
          · obtain rfl := mem_ite_singleton ha
            exact Or.inr (Or.inr rfl)
          · simp at ha
        · split at hc
          · next heq =>
            rw [hcv] at heq
            simp at heq
          · simp at hc
  have hnum_email : ∀ (col : String) (rule : FieldRule) (rn : Nat) (n : Int) (row : Row),
      rule.customValidator = none →
      ∀ e ∈ cellErrors col rule rn (.vNum n) row, e.errorType ≠ .EMAIL_RULE := by
    intro col rule rn n row hcv e he
    unfold cellErrors at he
    split at he
    · simp only [List.mem_singleton] at he
      subst he
      simp
    · split at he
      · simp only [List.mem_singleton] at he
        subst he
        simp
      · simp only [List.mem_append] at he
        rcases he with (hv | ha) | hc
        · split at hv
          · split at hv
            · simp only [List.mem_append] at hv
              rcases hv with (h1 | h2) | h3
              · have : isStringV (.vNum n) = false := rfl
                simp [this] at h1
              · obtain rfl := mem_ite_singleton h2
                simp
              · obtain rfl := mem_ite_singleton h3
                simp
            · simp at hv
          · simp at hv
        · split at ha
          · obtain rfl := mem_ite_singleton ha
            simp
          · simp at ha
        · split at hc
          · next heq =>
            rw [hcv] at heq
            simp at heq
          · simp at hc
  have hmemfmt : ∀ (col : String) (rule : FieldRule) (rn : Nat) (v : Value) (row : Row)
      (vs : Validators) (err : ExcelCellValidationError),
      rule.validators = some vs →
      (rule.required && requiredEmpty v) = false →
      (typeTruthy rule.type && jsNonNull v && (typeofStr v != rule.type.getD "")) = false →
      jsNonNull v = true →
      err ∈ ((if vs.isEmail && isStringV v && !(isEmail (jsString v)) then
          [⟨rn, col, "Invalid email address", .EMAIL_RULE⟩] else []) ++
        (if vs.isMobileNumber && isStrOrNumV v && !(isMobileNumber v) then
          [⟨rn, col, "Invalid mobile number", .MOBILE_RULE⟩] else []) ++
        (if vs.isEmployeeNumber && isStrOrNumV v && !(isEmployeeNumber v) then
          [⟨rn, col, "Invalid employee number", .EMPLOYEE_RULE⟩] else [])) →
      err ∈ cellErrors col rule rn v row := by
    intro col rule rn v row vs err hvs hreq hty hnn herr
    unfold cellErrors
    rw [if_neg (by rw [hreq]; simp), if_neg (by rw [hty]; simp)]
    apply List.mem_append_left
    apply List.mem_append_left
    rw [hvs]
    simp only [hnn, if_true]
    exact herr
  refine ⟨?_, hnum_email, ?_, ?_, ?_, ?_⟩
  · intro col rule rn b row hcv e he
    rcases hnoformat col rule rn (.vBool b) row hcv rfl rfl e he with h | h | h <;>
      simp [h]
  · intro col rule rn n row vs hvs hmob hty hfail
    apply hmemfmt col rule rn (.vNum n) row vs _ hvs (by simp [requiredEmpty])
      (by simp only [jsNonNull, Bool.and_true]; exact hty) rfl
    apply List.mem_append_left
    apply List.mem_append_right
    rw [if_pos (by simp [hmob, isStrOrNumV, hfail])]
    simp
  · intro col rule rn n row vs hvs hemp hty hfail
    apply hmemfmt col rule rn (.vNum n) row vs _ hvs (by simp [requiredEmpty])
      (by simp only [jsNonNull, Bool.and_true]; exact hty) rfl
    apply List.mem_append_right
    rw [if_pos (by simp [hemp, isStrOrNumV, hfail])]
    simp
  · intro col rule rn s row vs hvs hmob hreq hty hfail
    apply hmemfmt col rule rn (.vStr s) row vs _ hvs hreq (by simp only [jsNonNull, Bool.and_true]; exact hty) rfl
    apply List.mem_append_left
    apply List.mem_append_right
    rw [if_pos (by simp [hmob, isStrOrNumV, hfail])]
    simp
  · intro col rule rn s row vs hvs hemp hreq hty hfail
    apply hmemfmt col rule rn (.vStr s) row vs _ hvs hreq (by simp only [jsNonNull, Bool.and_true]; exact hty) rfl
    apply List.mem_append_right
    rw [if_pos (by simp [hemp, isStrOrNumV, hfail])]
    simp

/-- Counterexample to C10 as stated: a custom validator may return a
fragment typed EMAIL_RULE, so a boolean cell can still receive an
EMAIL_RULE-typed error even though the built-in validators never fire for
it. -/
theorem claim10_counterexample :
    validateData [[("b", Value.vBool true)]]
      [("b", { validators := some { isEmail := true, isMobileNumber := true,
                                    isEmployeeNumber := true },
               customValidator := some (fun _ _ => .fragment "boom" .EMAIL_RULE) })] [] none =
      .ok ⟨[⟨2, "b", "boom", .EMAIL_RULE⟩], [[("b", Value.vBool true)]], [0, 100]⟩ ∧
    countRC [⟨2, "b", "boom", .EMAIL_RULE⟩] 2 "b" .EMAIL_RULE ≠ 0 := by
  refine ⟨by rfl, by decide⟩

/-- Witness for C10 at concrete cells: a boolean cell with all three
validators enabled produces no errors at all, while the failing number
1234567890123 produces a MOBILE_RULE error. -/
theorem claim10_witness :
    (∀ e ∈ cellErrors "b" { validators := some { isEmail := true, isMobileNumber := true,
                                                 isEmployeeNumber := true } } 2
        (.vBool true) [("b", Value.vBool true)],
      e.errorType ≠ .EMAIL_RULE) ∧
    (⟨2, "m", "Invalid mobile number", .MOBILE_RULE⟩ : ExcelCellValidationError) ∈
      cellErrors "m" { validators := some { isMobileNumber := true } } 2
        (.vNum 1234567890123) [("m", Value.vNum 1234567890123)] := by
  constructor
  · intro e he
    exact (claim10_validator_kinds.1 "b" _ 2 true [("b", Value.vBool true)] rfl e he).1
  · exact claim10_validator_kinds.2.2.1 "m" _ 2 1234567890123
      [("m", Value.vNum 1234567890123)] { isMobileNumber := true } rfl rfl (by rfl) (by rfl)

/-! ## Single-group tracking lemmas for claim C8 -/

theorem aget?_stepGroup_self (m : UniqueValues) (cols : List String) (row : Row) (rn : Nat) :
    aget? (stepGroup m cols row rn) (compositeKey cols)
      = some (vmStep ((aget? m (compositeKey cols)).getD []) (compositeValue cols row) rn) :=
  aget?_aset_self _ _ _

theorem aget?_stepGroup_ne (m : UniqueValues) (cols : List String) (row : Row) (rn : Nat)
    (k : String) (h : k ≠ compositeKey cols) :
    aget? (stepGroup m cols row rn) k = aget? m k :=
  aget?_aset_ne _ _ _ _ h

theorem trackRowGroups_cons (m : UniqueValues) (cols : List String)
    (rest : List (List String)) (row : Row) (rn : Nat) :
    trackRowGroups m (cols :: rest) row rn
      = trackRowGroups (stepGroup m cols row rn) rest row rn := rfl

theorem aget?_trackRowGroups_not_mem (row : Row) (rn : Nat) (k : String) :
    ∀ (unique : List (List String)) (m : UniqueValues),
      k ∉ unique.map compositeKey →
      aget? (trackRowGroups m unique row rn) k = aget? m k := by
  intro unique
  induction unique with
  | nil =>
    intro m _
    rfl
  | cons cols rest ih =>
    intro m hk
    simp only [List.map_cons, List.mem_cons, not_or] at hk
    rw [trackRowGroups_cons, ih _ hk.2, aget?_stepGroup_ne _ _ _ _ _ hk.1]

theorem aget?_trackRowGroups (row : Row) (rn : Nat) (g : List String) :
    ∀ (unique : List (List String)) (m : UniqueValues),
      (unique.map compositeKey).Nodup → g ∈ unique →
      aget? (trackRowGroups m unique row rn) (compositeKey g)
        = some (vmStep ((aget? m (compositeKey g)).getD []) (compositeValue g row) rn) := by
  intro unique
  induction unique with
  | nil =>
    intro m _ hg
    simp at hg
  | cons cols rest ih =>
    intro m hnd hg
    simp only [List.map_cons, List.nodup_cons] at hnd
    rw [trackRowGroups_cons]
    rcases List.mem_cons.mp hg with hg | hg
    · subst hg
      rw [aget?_trackRowGroups_not_mem row rn _ rest _ hnd.1,
        aget?_stepGroup_self]
    · have hne : compositeKey g ≠ compositeKey cols := by
        intro h
        exact hnd.1 (h ▸ List.mem_map.mpr ⟨g, hg, rfl⟩)
      rw [ih _ hnd.2 hg, aget?_stepGroup_ne _ _ _ _ _ hne]

theorem aget?_trackAllFrom (g : List String) (unique : List (List String))
    (hnd : (unique.map compositeKey).Nodup) (hg : g ∈ unique) :
    ∀ (data : List Row) (i : Nat) (m : UniqueValues) (vm : ValueMap),
      aget? m (compositeKey g) = some vm →
      aget? (trackAllFrom unique i m data) (compositeKey g) = some (vmTrack g i vm data) := by
  intro data
  induction data with
  | nil =>
    intro i m vm h
    exact h
  | cons row rest ih =>
    intro i m vm h
    rw [trackAllFrom, vmTrack]
    apply ih
    rw [aget?_trackRowGroups row (i + 2) g unique m hnd hg, h]
    rfl

theorem aget?_initUniqueValues (g : List String) :
    ∀ (l : List (List String)) (m : UniqueValues),
      (compositeKey g ∈ l.map compositeKey ∨ aget? m (compositeKey g) = some []) →
      aget? (l.foldl (fun m cols => aset m (compositeKey cols) []) m) (compositeKey g)
        = some [] := by
  intro l
  induction l with
  | nil =>
    intro m h
    rcases h with h | h
    · simp at h
    · exact h
  | cons cols rest ih =>
    intro m h
    rw [List.foldl_cons]
    apply ih
    by_cases hk : compositeKey g = compositeKey cols
    · refine Or.inr ?_
      rw [hk]
      exact aget?_aset_self _ _ _
    · rcases h with h | h
      · simp only [List.map_cons, List.mem_cons] at h
        rcases h with h | h
        · exact absurd h hk
        · exact Or.inl h
      · exact Or.inr ((aget?_aset_ne _ _ _ _ hk).trans h)

theorem aget?_finalMap (data : List Row) (unique : List (List String)) (g : List String)
    (hnd : (unique.map compositeKey).Nodup) (hg : g ∈ unique) :
    aget? (finalMap data unique) (compositeKey g) = some (vmTrack g 0 [] data) := by
  unfold finalMap
  apply aget?_trackAllFrom g unique hnd hg data 0 _ []
  exact aget?_initUniqueValues g unique [] (Or.inl (List.mem_map.mpr ⟨g, hg, rfl⟩))

theorem filter_dupErrorsOf_self (k : String) (vm : ValueMap) :
    (dupErrorsOf k vm).filter (fun e => e.errorType == .DUPLICATE && e.column == k)
      = dupErrorsOf k vm := by
  apply List.filter_eq_self.mpr
  intro e he
  have h := mem_dupErrorsOf k vm e he
  simp [h.1, h.2]

theorem filter_allDupErrors_not_mem (k : String) (m : UniqueValues)
    (hk : k ∉ m.map Prod.fst) :
    (allDupErrors m).filter (fun e => e.errorType == .DUPLICATE && e.column == k) = [] := by
  rw [List.filter_eq_nil_iff]
  intro e he
  have h := mem_allDupErrors m e he
  simp only [Bool.and_eq_true, beq_iff_eq]
  intro hcontra
  exact hk (hcontra.2 ▸ h.2)

theorem filter_allDupErrors (k : String) (vm : ValueMap) :
    ∀ (m : UniqueValues), (m.map Prod.fst).Nodup → aget? m k = some vm →
      (allDupErrors m).filter (fun e => e.errorType == .DUPLICATE && e.column == k)
        = dupErrorsOf k vm := by
  intro m
  induction m with
  | nil =>
    intro _ h
    simp [aget?] at h
  | cons hd tl ih =>
    intro hnd hget
    obtain ⟨k', vm'⟩ := hd
    rw [aget?_cons] at hget
    unfold allDupErrors
    simp only [List.map_cons, List.flatten_cons, List.filter_append]
    simp only [List.map_cons, List.nodup_cons] at hnd
    by_cases hk : k' = k
    · rw [if_pos hk] at hget
      simp only [Option.some.injEq] at hget
      subst hget
      subst hk
      rw [filter_dupErrorsOf_self]
      have htl : (allDupErrors tl).filter
          (fun e => e.errorType == .DUPLICATE && e.column == k') = [] :=
        filter_allDupErrors_not_mem k' tl hnd.1
      rw [allDupErrors] at htl
      rw [htl, List.append_nil]
    · rw [if_neg hk] at hget
      have hhd : (dupErrorsOf k' vm').filter
          (fun e => e.errorType == .DUPLICATE && e.column == k) = [] := by
        rw [List.filter_eq_nil_iff]
        intro e he
        have h := mem_dupErrorsOf k' vm' e he
        simp only [Bool.and_eq_true, beq_iff_eq]
        intro hcontra
        exact hk (h.1 ▸ hcontra.2)
      have htl := ih hnd.2 hget
      rw [allDupErrors] at htl
      rw [hhd, htl, List.nil_append]

/-! ## Claim C8 -/

/-- C8 (amended): provided the constraint keys (column names joined by `"-"`
and trimmed) of the groups are pairwise distinct, the DUPLICATE errors
attributed to a given group — those whose `column` equals the group's
constraint key — are the same whether `validateData` runs with all groups or
with that single group alone on the same rows. -/
theorem claim8_group_independence (data : List Row) (schema : Schema)
    (unique : List (List String)) (g : List String) (resF resS : RunResult)
    (hnd : (unique.map compositeKey).Nodup) (hg : g ∈ unique)
    (hresF : validateData data schema unique none = .ok resF)
    (hresS : validateData data schema [g] none = .ok resS) :
    resF.errors.filter (fun e => e.errorType == .DUPLICATE && e.column == compositeKey g)
      = resS.errors.filter
          (fun e => e.errorType == .DUPLICATE && e.column == compositeKey g) := by
  rw [validateData_none_eq] at hresF hresS
  have hF := (Except.ok.injEq _ _).mp hresF
  have hS := (Except.ok.injEq _ _).mp hresS
  subst hF
  subst hS
  unfold normalResult
  simp only []
  rw [List.filter_append, List.filter_append]
  refine congrArg₂ _ rfl ?_
  have hndS : (([g] : List (List String)).map compositeKey).Nodup := by simp
  have hgS : g ∈ ([g] : List (List String)) := by simp
  have hkeysF : (finalMap data unique).map Prod.fst = unique.map compositeKey := by
    rw [keys_finalMap, keys_initUniqueValues unique hnd]
  have hkeysS : (finalMap data [g]).map Prod.fst = [compositeKey g] := by
    rw [keys_finalMap, keys_initUniqueValues [g] hndS]
    rfl
  rw [filter_allDupErrors (compositeKey g) (vmTrack g 0 [] data) (finalMap data unique)
      (by rw [hkeysF]; exact hnd) (aget?_finalMap data unique g hnd hg),
    filter_allDupErrors (compositeKey g) (vmTrack g 0 [] data) (finalMap data [g])
      (by rw [hkeysS]; simp) (aget?_finalMap data [g] g hndS hgS)]

/-- Counterexample to C8 as stated: with the duplicated groups
`[["id"], ["id"]]` both groups write into the same map entry, so a single
row is recorded twice and reported as a duplicate, while the group `["id"]`
alone reports nothing — the presence of the other group changed this group's
duplicate results. -/
theorem claim8_counterexample :
    validateData [[("id", Value.vStr "1")]] [] [["id"]] none =
      .ok ⟨[], [[]], [0, 50, 100]⟩ ∧
    validateData [[("id", Value.vStr "1")], [("id", Value.vStr "1")]] [] [["id"], ["id"]]
        none =
      .ok ⟨[⟨2, "id", "Duplicate value found: 1 in rows 2, 2, 3, 3", .DUPLICATE⟩,
            ⟨2, "id", "Duplicate value found: 1 in rows 2, 2, 3, 3", .DUPLICATE⟩,
            ⟨3, "id", "Duplicate value found: 1 in rows 2, 2, 3, 3", .DUPLICATE⟩,
            ⟨3, "id", "Duplicate value found: 1 in rows 2, 2, 3, 3", .DUPLICATE⟩],
           [[], []], [0, 25, 50, 75]⟩ ∧
    validateData [[("id", Value.vStr "1")]] [] [["id"], ["id"]] none =
      .ok ⟨[⟨2, "id", "Duplicate value found: 1 in rows 2, 2", .DUPLICATE⟩,
            ⟨2, "id", "Duplicate value found: 1 in rows 2, 2", .DUPLICATE⟩],
           [[]], [0, 33, 67]⟩ ∧
    ([⟨2, "id", "Duplicate value found: 1 in rows 2, 2", .DUPLICATE⟩,
      ⟨2, "id", "Duplicate value found: 1 in rows 2, 2", .DUPLICATE⟩] :
        List ExcelCellValidationError) ≠ [] := by
  refine ⟨by rfl, by rfl, by rfl, by simp⟩

/-- Witness for C8 at a concrete run: two distinct-key groups over two equal
rows give the same "id"-attributed DUPLICATE errors as the "id" group
alone. -/
theorem claim8_witness :
    (normalResult [[("id", Value.vStr "1")], [("id", Value.vStr "1")]] []
        [["id"], ["x"]]).errors.filter
        (fun e => e.errorType == .DUPLICATE && e.column == compositeKey ["id"])
      = (normalResult [[("id", Value.vStr "1")], [("id", Value.vStr "1")]] []
          [["id"]]).errors.filter
          (fun e => e.errorType == .DUPLICATE && e.column == compositeKey ["id"]) := by
  exact claim8_group_independence [[("id", Value.vStr "1")], [("id", Value.vStr "1")]] []
    [["id"], ["x"]] ["id"] _ _ (by decide) (by simp)
    (validateData_none_eq _ _ _) (validateData_none_eq _ _ _)

end ExcelValidation
